import Mathlib

/-!
# Panorama observation store (`store/store.go`)

A shallow embedding of `RawHealthStorage` and its operations, followed by the
properties established about them.

* Go maps are finite association lists without duplicate keys (`GoMap`).
* `container/list` values are Lean lists (front = head, back = last element).
* Pointers to panoramas, views and mutexes are replaced by the values they point
  to, written back under the key they are stored at.
* A `sync.Mutex` is a flag; an operation is run to its end by one goroutine, so a `Lock`
  on a held mutex never returns (`Exec.blocked`).
* Goroutines that call `AddReport` at the same time take its two critical sections as
  steps, in any interleaving (`Concurrent`).
-/

namespace Store

/-! ## Go maps -/

/-- Value stored under key `k` in an association list (`v, ok := m[k]`). -/
def lookupKey {K V : Type} [DecidableEq K] (k : K) : List (K × V) → Option V
  | [] => none
  | (k', v) :: rest => if k' = k then some v else lookupKey k rest

/-- Assignment `m[k] = v` on an association list: overwrite in place, or add a new entry. -/
def assignKey {K V : Type} [DecidableEq K] (k : K) (v : V) : List (K × V) → List (K × V)
  | [] => [(k, v)]
  | (k', v') :: rest => if k' = k then (k, v) :: rest else (k', v') :: assignKey k v rest

/-- Removal `delete(m, k)` on an association list. -/
def deleteKey {K V : Type} [DecidableEq K] (k : K) : List (K × V) → List (K × V)
  | [] => []
  | (k', v') :: rest => if k' = k then rest else (k', v') :: deleteKey k rest

theorem keys_assignKey {K V : Type} [DecidableEq K] (k : K) (v : V) (l : List (K × V)) :
    (assignKey k v l).map Prod.fst =
      if k ∈ l.map Prod.fst then l.map Prod.fst else l.map Prod.fst ++ [k] := by
  induction l with
  | nil => simp [assignKey]
  | cons p rest ih =>
    obtain ⟨k', v'⟩ := p
    by_cases h : k' = k
    · subst h; simp [assignKey]
    · have h' : ¬ k = k' := fun e => h e.symm
      simp only [assignKey, h, if_false, List.map_cons, ih, List.mem_cons, h', false_or]
      split <;> simp

theorem nodup_assignKey {K V : Type} [DecidableEq K] (k : K) (v : V) (l : List (K × V))
    (h : (l.map Prod.fst).Nodup) : ((assignKey k v l).map Prod.fst).Nodup := by
  rw [keys_assignKey]
  split
  · exact h
  · rename_i hk
    rw [List.nodup_append]
    refine ⟨h, List.nodup_singleton k, ?_⟩
    intro a ha hb
    simp only [List.mem_singleton] at hb
    subst hb
    exact hk ha

theorem keys_deleteKey_sublist {K V : Type} [DecidableEq K] (k : K) (l : List (K × V)) :
    ((deleteKey k l).map Prod.fst).Sublist (l.map Prod.fst) := by
  induction l with
  | nil => simp [deleteKey]
  | cons p rest ih =>
    obtain ⟨k', v'⟩ := p
    by_cases h : k' = k
    · simp [deleteKey, h]
    · simp only [deleteKey, h, if_false, List.map_cons]
      exact ih.cons₂ _

theorem nodup_deleteKey {K V : Type} [DecidableEq K] (k : K) (l : List (K × V))
    (h : (l.map Prod.fst).Nodup) : ((deleteKey k l).map Prod.fst).Nodup :=
  h.sublist (keys_deleteKey_sublist k l)

/-- A Go `map[K]V`: finitely many entries, each key at most once.  The order of
`entries` is internal; `range` loops see it only through a `RangeOrder`. -/
structure GoMap (K V : Type) where
  entries : List (K × V)
  nodup : (entries.map Prod.fst).Nodup

namespace GoMap

theorem ext_entries {K V : Type} {m₁ m₂ : GoMap K V} (h : m₁.entries = m₂.entries) :
    m₁ = m₂ := by
  cases m₁; cases m₂; cases h; rfl

variable {K V : Type} [DecidableEq K]

instance [DecidableEq V] : DecidableEq (GoMap K V) := fun m₁ m₂ =>
  if h : m₁.entries = m₂.entries then isTrue (ext_entries h)
  else isFalse (fun e => h (by rw [e]))

/-- The empty map of `make(map[K]V)`. -/
def empty : GoMap K V := ⟨[], List.nodup_nil⟩

/-- Lookup `v, ok := m[k]`; `none` when `ok` is false. -/
def get? (m : GoMap K V) (k : K) : Option V := lookupKey k m.entries

/-- Key test: the `ok` of `_, ok := m[k]`. -/
def contains (m : GoMap K V) (k : K) : Bool := (m.get? k).isSome

/-- Assignment `m[k] = v`. -/
def set (m : GoMap K V) (k : K) (v : V) : GoMap K V :=
  ⟨assignKey k v m.entries, nodup_assignKey k v m.entries m.nodup⟩

/-- Removal `delete(m, k)`. -/
def delete (m : GoMap K V) (k : K) : GoMap K V :=
  ⟨deleteKey k m.entries, nodup_deleteKey k m.entries m.nodup⟩

end GoMap

/-! ## Data model -/

/-- Modelled from the spec: `dt.EntityId`, declared in package `deephealth/types`, an
opaque string-like identifier of a subject or an observer. -/
abbrev EntityId := String

/-- Modelled from the spec: the `time.Time` instant carried by an observation, as a
count of time units; only the order of instants is used. -/
abbrev Time := Int

/-- Strict order of instants, `t.Before(u)`. -/
def Before (t u : Time) : Bool := decide (t < u)

/-- Modelled from the spec: the metrics payload of an observation (declared in
`deephealth/types`), opaque to the store. -/
abbrev Metrics := String

/-- Modelled from the spec: `dt.Observation` (declared in `deephealth/types`), a
timestamp `Ts` and a metrics payload. -/
structure Observation where
  Ts : Time
  Metrics : Metrics
  deriving DecidableEq, Repr

/-- Modelled from the spec: `dt.Report` (declared in `deephealth/types`), the message
(observer, subject, observation) handed to `AddReport`. -/
structure Report where
  Observer : EntityId
  Subject : EntityId
  Observation : Observation
  deriving DecidableEq, Repr

/-- Modelled from the spec: `dt.View` (declared in `deephealth/types`); `Observations`
is the `container/list`, front first. -/
structure View where
  Observer : EntityId
  Subject : EntityId
  Observations : List Observation
  deriving DecidableEq, Repr

/-- Modelled from the spec: `dt.Panorama` (declared in `deephealth/types`), the views of
one subject keyed by observer. -/
structure Panorama where
  Subject : EntityId
  Views : GoMap EntityId View
  deriving DecidableEq

/-- A `sync.Mutex`: `locked` is true while it is held. -/
structure Mutex where
  locked : Bool
  deriving DecidableEq, Repr

/-- Result of `m.Lock()`: `none` when the mutex is held, in which case the caller waits. -/
def Mutex.Lock (m : Mutex) : Option Mutex :=
  if m.locked then none else some ⟨true⟩

/-- Result of `m.Unlock()`: `none` is the fatal "unlock of unlocked mutex". -/
def Mutex.Unlock (m : Mutex) : Option Mutex :=
  if m.locked then some ⟨false⟩ else none

def MaxReportPerView : Nat := 5

def REPORT_IGNORED : Int := 0

def REPORT_ACCEPTED : Int := 1

def REPORT_FAILED : Int := 2

/-- The store: three maps keyed by subject and the store-wide mutex `mu`. -/
structure RawHealthStorage where
  Tenants : GoMap EntityId Panorama
  Locks : GoMap EntityId Mutex
  Watchlist : GoMap EntityId Bool
  mu : Mutex
  deriving DecidableEq

/-- A Go `error` value; `none : Option GoError` is the nil error. -/
abbrev GoError := String

/-- How a call ends, with the store as the call leaves it. -/
inductive Exec (α : Type) where
  /-- The call returns `val`. -/
  | returned (val : α) (st : RawHealthStorage)
  /-- The call waits forever in `Lock` on a mutex that is held. -/
  | blocked (st : RawHealthStorage)
  /-- The call stops with a run-time panic (nil dereference, unlock of a free mutex). -/
  | panicked (st : RawHealthStorage)
  deriving DecidableEq

/-- Store as the call leaves it, whether it returned or not. -/
def Exec.state {α : Type} : Exec α → RawHealthStorage
  | .returned _ st => st
  | .blocked st => st
  | .panicked st => st

/-- Returned value, if the call returns. -/
def Exec.value? {α : Type} : Exec α → Option α
  | .returned v _ => some v
  | .blocked _ => none
  | .panicked _ => none

/-- Body of the constructor loop for one subject. -/
def newSubject (store : RawHealthStorage) (subject : EntityId) : RawHealthStorage :=
  { store with
    Watchlist := store.Watchlist.set subject true
    Locks := store.Locks.set subject ⟨false⟩
    Tenants := store.Tenants.set subject { Subject := subject, Views := GoMap.empty } }

/-- Constructor `NewRawHealthStorage(subjects ...)`. -/
def NewRawHealthStorage (subjects : List EntityId) : RawHealthStorage :=
  subjects.foldl newSubject
    { Tenants := GoMap.empty, Locks := GoMap.empty, Watchlist := GoMap.empty, mu := ⟨false⟩ }

/-- Operation `AddSubject(subject)`.  Both mutex calls of the source are `Lock`. -/
def AddSubject (self : RawHealthStorage) (subject : EntityId) : Exec Bool :=
  -- self.mu.Lock()
  match self.mu.Lock with
  | none => .blocked self
  | some mu1 =>
    let s1 := { self with mu := mu1 }
    -- _, ok := self.Watchlist[subject]
    let ok := s1.Watchlist.contains subject
    -- self.Watchlist[subject] = true
    let s2 := { s1 with Watchlist := s1.Watchlist.set subject true }
    -- self.mu.Lock()
    match s2.mu.Lock with
    | none => .blocked s2
    | some mu2 => .returned (!ok) { s2 with mu := mu2 }

/-- Operation `RemoveSubject(subject, clean)`.  The deferred call of the source is
`self.mu.Lock()`; it runs once the body is done, before the call returns. -/
def RemoveSubject (self : RawHealthStorage) (subject : EntityId) (clean : Bool) : Exec Bool :=
  -- self.mu.Lock()
  match self.mu.Lock with
  | none => .blocked self
  | some mu1 =>
    let s1 := { self with mu := mu1 }
    -- _, ok := self.Watchlist[subject]
    let ok := s1.Watchlist.contains subject
    -- delete(self.Watchlist, subject)
    let s2 := { s1 with Watchlist := s1.Watchlist.delete subject }
    -- if clean { delete(self.Tenants, subject); delete(self.Locks, subject) }
    let s3 := if clean then
        { s2 with Tenants := s2.Tenants.delete subject, Locks := s2.Locks.delete subject }
      else s2
    -- deferred self.mu.Lock()
    match s3.mu.Lock with
    | none => .blocked s3
    | some mu2 => .returned ok { s3 with mu := mu2 }

/-- Tail of `AddReport` run under the per-subject mutex: find or create the view of
`report.Observer`, push the observation at the back, drop the front one when the length
exceeds `MaxReportPerView`. -/
def recordObservation (panorama : Panorama) (report : Report) : Panorama :=
  -- view, ok := panorama.Views[report.Observer]
  let view : View := match panorama.Views.get? report.Observer with
    | some view => view
    | none => { Observer := report.Observer, Subject := report.Subject, Observations := [] }
  -- view.Observations.PushBack(&report.Observation)
  let pushed := view.Observations ++ [report.Observation]
  -- if view.Observations.Len() > MaxReportPerView { Remove(Front()) }
  let kept := if pushed.length > MaxReportPerView then pushed.tail else pushed
  { panorama with Views := panorama.Views.set report.Observer { view with Observations := kept } }

/-- Operation `AddReport(report, filter)`. -/
def AddReport (self : RawHealthStorage) (report : Report) (filter : Bool) :
    Exec (Int × Option GoError) :=
  -- self.mu.Lock()
  match self.mu.Lock with
  | none => .blocked self
  | some mu1 =>
    let s1 := { self with mu := mu1 }
    -- _, ok := self.Watchlist[report.Subject]
    let ok := s1.Watchlist.contains report.Subject
    if !ok && filter then
      -- self.mu.Unlock(); return REPORT_IGNORED, nil
      match s1.mu.Unlock with
      | none => .panicked s1
      | some mu2 => .returned (REPORT_IGNORED, none) { s1 with mu := mu2 }
    else
      -- self.Watchlist[report.Subject] = true, when !ok
      let s2 := if !ok then { s1 with Watchlist := s1.Watchlist.set report.Subject true } else s1
      -- l, ok := self.Locks[report.Subject]; created when !ok
      let s3 := match s2.Locks.get? report.Subject with
        | some _ => s2
        | none => { s2 with Locks := s2.Locks.set report.Subject ⟨false⟩ }
      let l : Mutex := (s2.Locks.get? report.Subject).getD ⟨false⟩
      -- panorama, ok := self.Tenants[report.Subject]; created when !ok
      let panorama : Panorama := (s3.Tenants.get? report.Subject).getD
        { Subject := report.Subject, Views := GoMap.empty }
      let s4 := match s3.Tenants.get? report.Subject with
        | some _ => s3
        | none => { s3 with Tenants := s3.Tenants.set report.Subject panorama }
      -- self.mu.Unlock()
      match s4.mu.Unlock with
      | none => .panicked s4
      | some mu2 =>
        let s5 := { s4 with mu := mu2 }
        -- l.Lock()
        match l.Lock with
        | none => .blocked s5
        | some l1 =>
          let s6 := { s5 with Locks := s5.Locks.set report.Subject l1 }
          let s7 := { s6 with
            Tenants := s6.Tenants.set report.Subject (recordObservation panorama report) }
          -- deferred l.Unlock(); return REPORT_ACCEPTED, nil
          match l1.Unlock with
          | none => .panicked s7
          | some l2 =>
            .returned (REPORT_ACCEPTED, none)
              { s7 with Locks := s7.Locks.set report.Subject l2 }

/-- Operation `GetPanorama(subject)`; `(none, none)` is the pair of nil pointers. -/
def GetPanorama (self : RawHealthStorage) (subject : EntityId) :
    Exec (Option Panorama × Option Mutex) :=
  -- self.mu.Lock()
  match self.mu.Lock with
  | none => .blocked self
  | some mu1 =>
    let s1 := { self with mu := mu1 }
    -- the three nested lookups
    let result : Option Panorama × Option Mutex :=
      if s1.Watchlist.contains subject then
        match s1.Locks.get? subject with
        | some l =>
          match s1.Tenants.get? subject with
          | some panorama => (some panorama, some l)
          | none => (none, none)
        | none => (none, none)
      else (none, none)
    -- deferred self.mu.Unlock()
    match s1.mu.Unlock with
    | none => .panicked s1
    | some mu2 => .returned result { s1 with mu := mu2 }

/-- Order in which a `range` loop visits the entries of a map: the Go runtime yields
every entry once, in an order of its choosing. -/
structure RangeOrder where
  visit : List (EntityId × View) → List (EntityId × View)
  perm : ∀ l, (visit l).Perm l

/-- Local variables of the loop of `GetLatestReport`. -/
structure Scan where
  max_ts : Time
  recent_ob : Option Observation
  who : EntityId
  first : Bool
  deriving DecidableEq, Repr

/-- Loop body for one map entry; `none` is the nil dereference `e.Value` when the view
holds no observation (`Back()` is nil). -/
def scanStep (acc : Scan) (observer : EntityId) (view : View) : Option Scan :=
  -- e := view.Observations.Back(); val := e.Value.(*dt.Observation)
  match view.Observations.getLast? with
  | none => none
  | some val =>
    if acc.first || Before acc.max_ts val.Ts then
      some { first := false, max_ts := val.Ts, recent_ob := some val, who := observer }
    else some acc

/-- The loop `for observer, view := range panorama.Views` over the visited entries. -/
def scanViews : Scan → List (EntityId × View) → Option Scan
  | acc, [] => some acc
  | acc, (observer, view) :: rest =>
    match scanStep acc observer view with
    | none => none
    | some acc' => scanViews acc' rest

/-- Loop variables on entry to the loop of `GetLatestReport`: `max_ts`, `recent_ob` and
`who` hold their zero values, `first` is true. -/
def scanInit : Scan := { max_ts := 0, recent_ob := none, who := "", first := true }

/-- Deferred `l.Unlock()` of `GetLatestReport` on the mutex stored for `subject`. -/
def unlockSubject (s : RawHealthStorage) (subject : EntityId) (l : Mutex) :
    Option RawHealthStorage :=
  match l.Unlock with
  | none => none
  | some l2 => some { s with Locks := s.Locks.set subject l2 }

/-- Operation `GetLatestReport(subject)`; `none` is the nil report.  The iteration order
of the map `panorama.Views` is the parameter `range`. -/
def GetLatestReport (range : RangeOrder) (self : RawHealthStorage) (subject : EntityId) :
    Exec (Option Report) :=
  -- self.mu.Lock()
  match self.mu.Lock with
  | none => .blocked self
  | some mu1 =>
    let s1 := { self with mu := mu1 }
    -- l, ok := self.Locks[subject]
    match s1.Locks.get? subject with
    | none => .returned none s1
    | some l =>
      -- self.mu.Unlock()
      match s1.mu.Unlock with
      | none => .panicked s1
      | some mu2 =>
        let s2 := { s1 with mu := mu2 }
        -- l.Lock(); defer l.Unlock()
        match l.Lock with
        | none => .blocked s2
        | some l1 =>
          let s3 := { s2 with Locks := s2.Locks.set subject l1 }
          let s4 := (unlockSubject s3 subject l1).getD s3
          -- panorama, ok := self.Tenants[subject]
          match s3.Tenants.get? subject with
          | none => .returned none s4
          | some panorama =>
            match scanViews scanInit (range.visit panorama.Views.entries) with
            | none => .panicked s4
            | some acc =>
              match acc.recent_ob with
              | none => .returned none s4
              | some ob =>
                .returned (some { Observer := acc.who, Subject := subject, Observation := ob }) s4

/-! ## Closed forms, runs of calls and scenarios -/

/-- Neither the store-wide mutex nor the mutex recorded for `subject` is held. -/
def Free (st : RawHealthStorage) (subject : EntityId) : Prop :=
  st.mu.locked = false ∧ ∀ l, st.Locks.get? subject = some l → l.locked = false

instance (st : RawHealthStorage) (subject : EntityId) : Decidable (Free st subject) := by
  unfold Free
  cases h : st.Locks.get? subject with
  | none => exact decidable_of_iff (st.mu.locked = false) (by simp)
  | some l => exact decidable_of_iff (st.mu.locked = false ∧ l.locked = false) (by simp)

/-- The panorama `AddReport` works on: the one stored for the subject, or a new empty one. -/
def panoramaFor (st : RawHealthStorage) (subject : EntityId) : Panorama :=
  (st.Tenants.get? subject).getD { Subject := subject, Views := GoMap.empty }

/-- Store left by an accepted `AddReport`, in closed form. -/
def acceptedStore (st : RawHealthStorage) (report : Report) : RawHealthStorage :=
  { Watchlist :=
      if st.Watchlist.contains report.Subject then st.Watchlist
      else st.Watchlist.set report.Subject true
    Locks := st.Locks.set report.Subject ⟨false⟩
    Tenants :=
      st.Tenants.set report.Subject (recordObservation (panoramaFor st report.Subject) report)
    mu := ⟨false⟩ }

/-- Observations kept by `AddReport` once `ob` is pushed behind `obs`. -/
def pushTrim (obs : List Observation) (ob : Observation) : List Observation :=
  if (obs ++ [ob]).length > MaxReportPerView then (obs ++ [ob]).tail else obs ++ [ob]

/-- Observations held for `observer` in a panorama; `none` when it has no such view. -/
def Panorama.obsOf (p : Panorama) (observer : EntityId) : Option (List Observation) :=
  (p.Views.get? observer).map View.Observations

/-- The loop variables `acc` hold the tail observation of one of the entries of `l`. -/
def Picked (l : List (EntityId × View)) (acc : Scan) : Prop :=
  ∃ o v ob, (o, v) ∈ l ∧ v.Observations.getLast? = some ob ∧
    acc = { max_ts := ob.Ts, recent_ob := some ob, who := o, first := false }

/-- Every entry of `l` has a tail observation, none later than `t`. -/
def TailsBounded (l : List (EntityId × View)) (t : Time) : Prop :=
  ∀ o v, (o, v) ∈ l → ∃ ob, v.Observations.getLast? = some ob ∧ ob.Ts ≤ t

/-- Outcome of `GetLatestReport` once the lock and the panorama are found, as a function
of the scan. -/
def latestOutcome (st : RawHealthStorage) (subject : EntityId) :
    Option Scan → Exec (Option Report)
  | none => .panicked st
  | some acc =>
    match acc.recent_ob with
    | none => .returned none st
    | some ob => .returned (some { Observer := acc.who, Subject := subject, Observation := ob }) st

/-- Range order that visits the entries as stored. -/
def storedOrder : RangeOrder := ⟨id, fun l => List.Perm.refl l⟩

/-- Range order that visits the entries last to first. -/
def reverseOrder : RangeOrder := ⟨List.reverse, fun l => List.reverse_perm l⟩

/-- Store obtained from `st` by submitting the reports `rs` in turn, unfiltered. -/
def submitAll (st : RawHealthStorage) (rs : List Report) : RawHealthStorage :=
  rs.foldl (fun s r => (AddReport s r false).state) st

/-- A store whose single view of subject `S` holds no observation. -/
def emptyViewStore : RawHealthStorage :=
  { Tenants := GoMap.empty.set "S"
      { Subject := "S", Views := GoMap.empty.set "O" { Observer := "O", Subject := "S", Observations := [] } }
    Locks := GoMap.empty.set "S" ⟨false⟩
    Watchlist := GoMap.empty.set "S" true
    mu := ⟨false⟩ }

/-- A call on the store. -/
inductive Call where
  | addSubject (subject : EntityId)
  | removeSubject (subject : EntityId) (clean : Bool)
  | addReport (report : Report) (filter : Bool)
  | getPanorama (subject : EntityId)
  | getLatestReport (range : RangeOrder) (subject : EntityId)

/-- Store in which a call returns; `none` when it does not return. -/
def Exec.returned? {α : Type} : Exec α → Option RawHealthStorage
  | .returned _ st => some st
  | .blocked _ => none
  | .panicked _ => none

/-- Store in which call `c`, made on `st`, returns. -/
def Call.run (st : RawHealthStorage) : Call → Option RawHealthStorage
  | .addSubject subject => (AddSubject st subject).returned?
  | .removeSubject subject clean => (RemoveSubject st subject clean).returned?
  | .addReport report filter => (AddReport st report filter).returned?
  | .getPanorama subject => (GetPanorama st subject).returned?
  | .getLatestReport range subject => (GetLatestReport range st subject).returned?

/-- Store after the calls `cs` are made one after the other on `st`, each one returning
before the next is made; `none` when one of them does not return. -/
def runCalls : RawHealthStorage → List Call → Option RawHealthStorage
  | st, [] => some st
  | st, c :: cs =>
    match c.run st with
    | none => none
    | some st' => runCalls st' cs

/-- The observation that call `c`, made on `st`, submits for the view of observer `o` on
subject `s`: that of an `AddReport` from `o` about `s` which returns `REPORT_ACCEPTED`. -/
def Call.accepts (o s : EntityId) (st : RawHealthStorage) : Call → Option Observation
  | .addReport report filter =>
    if report.Observer = o ∧ report.Subject = s ∧
        (AddReport st report filter).value? = some (REPORT_ACCEPTED, none) then
      some report.Observation
    else none
  | _ => none

/-- Observations of the accepted reports from `o` about `s` in a run, in submission order. -/
def acceptedObs (o s : EntityId) : RawHealthStorage → List Call → List Observation
  | _, [] => []
  | st, c :: cs =>
    match c.run st with
    | none => []
    | some st' => (c.accepts o s st).toList ++ acceptedObs o s st' cs

/-- Observations stored for observer `o` in the panorama of subject `s`; `none` when there
is no such view. -/
def obsAt (st : RawHealthStorage) (s o : EntityId) : Option (List Observation) :=
  (st.Tenants.get? s).bind (fun p => p.obsOf o)

/-- Content of a view after the observations `obs` are pushed one by one. -/
def applyObs (cur : Option (List Observation)) (obs : List Observation) :
    Option (List Observation) :=
  obs.foldl (fun c ob => some (pushTrim (c.getD []) ob)) cur

/-- Six filtered reports from observer `O` about subject `S`, at times 1 to 6. -/
def sixReports : List Call :=
  [1, 2, 3, 4, 5, 6].map (fun t => Call.addReport ⟨"O", "S", ⟨t, "m"⟩⟩ true)

/-- The store after `sixReports` are submitted to a new store watching `S`. -/
def afterSix : RawHealthStorage :=
  (runCalls (NewRawHealthStorage ["S"]) sixReports).getD (NewRawHealthStorage [])

/-- The store after observer `A` reports at time 1 and then observer `B` at time 2. -/
def twoObserversAB : RawHealthStorage :=
  submitAll (NewRawHealthStorage ["S"]) [⟨"A", "S", ⟨1, "m"⟩⟩, ⟨"B", "S", ⟨2, "m"⟩⟩]

/-- The store after observer `B` reports at time 2 and then observer `A` at time 1. -/
def twoObserversBA : RawHealthStorage :=
  submitAll (NewRawHealthStorage ["S"]) [⟨"B", "S", ⟨2, "m"⟩⟩, ⟨"A", "S", ⟨1, "m"⟩⟩]

/-- The store after observer `O` reports on `S` at time 10 and then at time 5. -/
def outOfOrderStore : RawHealthStorage :=
  submitAll (NewRawHealthStorage ["S"]) [⟨"O", "S", ⟨10, "m"⟩⟩, ⟨"O", "S", ⟨5, "m"⟩⟩]

/-- Store as call `c`, made on `st`, leaves it: the store it returns in, or the store at
the point where it stops (waiting for a mutex, or panicking). -/
def Call.leaves (st : RawHealthStorage) : Call → RawHealthStorage
  | .addSubject subject => (AddSubject st subject).state
  | .removeSubject subject clean => (RemoveSubject st subject clean).state
  | .addReport report filter => (AddReport st report filter).state
  | .getPanorama subject => (GetPanorama st subject).state
  | .getLatestReport range subject => (GetLatestReport range st subject).state

/-- Stores that arise from `NewRawHealthStorage` through calls of the store's operations,
each store being the one the previous call left. -/
inductive Reachable : RawHealthStorage → Prop where
  | init (subjects : List EntityId) : Reachable (NewRawHealthStorage subjects)
  | call (st : RawHealthStorage) (c : Call) : Reachable st → Reachable (c.leaves st)

/-- Every panorama stored in the map satisfies `P` at its key. -/
def MapAll (P : EntityId → Panorama → Prop) (T : GoMap EntityId Panorama) : Prop :=
  ∀ s p, T.get? s = some p → P s p

/-- Every view of the panorama holds at most `MaxReportPerView` observations. -/
def ViewsBounded (_s : EntityId) (p : Panorama) : Prop :=
  ∀ o v, p.Views.get? o = some v → v.Observations.length ≤ MaxReportPerView

/-- The panorama and its views carry the keys they are stored under. -/
def KeysConsistent (s : EntityId) (p : Panorama) : Prop :=
  p.Subject = s ∧ ∀ o v, p.Views.get? o = some v → v.Observer = o ∧ v.Subject = s

/-- Every view of the panorama holds at least one observation. -/
def ViewsNonempty (_s : EntityId) (p : Panorama) : Prop :=
  ∀ o v, p.Views.get? o = some v → v.Observations ≠ []

/-- The retention rule in the words of the specification: once the length exceeds
`MaxReportPerView`, remove from the head until the length is `MaxReportPerView`. -/
def evictToBound (obs : List Observation) : List Observation :=
  obs.drop (obs.length - MaxReportPerView)

/-- Calls of the operations that change the maps: `AddSubject`, `RemoveSubject` and
`AddReport`. -/
def Call.mutates : Call → Bool
  | .addSubject _ => true
  | .removeSubject _ _ => true
  | .addReport _ _ => true
  | .getPanorama _ => false
  | .getLatestReport _ _ => false

/-- No mutex of the store is held. -/
def AllFree (st : RawHealthStorage) : Prop :=
  st.mu.locked = false ∧ ∀ s l, st.Locks.get? s = some l → l.locked = false

/-- First critical section of `AddReport` (lines 75-101), run under the store-wide mutex:
the Watchlist test and the creation of the lock and the panorama.  It returns `false` when
the report is ignored (`AddReport` then returns `REPORT_IGNORED`) and `true` when the
goroutine goes on, with `l` and `panorama` in hand, to `l.Lock()`. -/
def AddReport.admission (self : RawHealthStorage) (report : Report) (filter : Bool) :
    Exec Bool :=
  -- self.mu.Lock()
  match self.mu.Lock with
  | none => .blocked self
  | some mu1 =>
    let s1 := { self with mu := mu1 }
    -- _, ok := self.Watchlist[report.Subject]
    let ok := s1.Watchlist.contains report.Subject
    if !ok && filter then
      -- self.mu.Unlock(); return REPORT_IGNORED, nil
      match s1.mu.Unlock with
      | none => .panicked s1
      | some mu2 => .returned false { s1 with mu := mu2 }
    else
      -- self.Watchlist[report.Subject] = true, when !ok
      let s2 := if !ok then { s1 with Watchlist := s1.Watchlist.set report.Subject true } else s1
      -- l, ok := self.Locks[report.Subject]; created when !ok
      let s3 := match s2.Locks.get? report.Subject with
        | some _ => s2
        | none => { s2 with Locks := s2.Locks.set report.Subject ⟨false⟩ }
      -- panorama, ok := self.Tenants[report.Subject]; created when !ok
      let created : Panorama := { Subject := report.Subject, Views := GoMap.empty }
      let s4 := match s3.Tenants.get? report.Subject with
        | some _ => s3
        | none => { s3 with Tenants := s3.Tenants.set report.Subject created }
      -- self.mu.Unlock()
      match s4.mu.Unlock with
      | none => .panicked s4
      | some mu2 => .returned true { s4 with mu := mu2 }

/-- Second critical section of `AddReport` (lines 102-120), run under the subject's
mutex `l`.  The pointers `l` and `panorama` that the goroutine obtained in the first
section are the mutex and the panorama stored under the subject (no entry is removed
while only `AddReport` calls run), so they are looked up there. -/
def AddReport.recording (self : RawHealthStorage) (report : Report) :
    Exec (Int × Option GoError) :=
  match self.Locks.get? report.Subject, self.Tenants.get? report.Subject with
  | some l, some panorama =>
    -- l.Lock()
    match l.Lock with
    | none => .blocked self
    | some l1 =>
      let s6 := { self with Locks := self.Locks.set report.Subject l1 }
      let s7 := { s6 with
        Tenants := s6.Tenants.set report.Subject (recordObservation panorama report) }
      -- deferred l.Unlock(); return REPORT_ACCEPTED, nil
      match l1.Unlock with
      | none => .panicked s7
      | some l2 =>
        .returned (REPORT_ACCEPTED, none) { s7 with Locks := s7.Locks.set report.Subject l2 }
  | _, _ => .panicked self

/-- Where a goroutine that runs `AddReport` stands. -/
inductive Phase where
  /-- Before `self.mu.Lock()`. -/
  | waiting
  /-- Between `self.mu.Unlock()` and `l.Lock()`. -/
  | admitted
  /-- After the return, with the returned values. -/
  | finished (outcome : Int × Option GoError)
  deriving DecidableEq

/-- Goroutines running `AddReport` on one store: the store and the phase of each
goroutine. -/
structure Concurrent where
  store : RawHealthStorage
  phase : Nat → Phase

/-- All goroutines about to call `AddReport` on `st`. -/
def Concurrent.start (st : RawHealthStorage) : Concurrent :=
  { store := st, phase := fun _ => Phase.waiting }

/-- Goroutine `i` moves to phase `p`. -/
def Concurrent.move (sys : Concurrent) (st' : RawHealthStorage) (i : Nat) (p : Phase) :
    Concurrent :=
  { store := st', phase := fun j => if j = i then p else sys.phase j }

/-- Goroutine `i`, which runs `AddReport` on the `i`-th of `calls`, runs its next critical
section; each section runs as one step, since the mutex it holds keeps every other
goroutine out of the sections that touch the same data.  `none` when the goroutine cannot
run the section now (there is no such goroutine, it has returned, or it has to wait for
a mutex). -/
def Concurrent.step (calls : List (Report × Bool)) (sys : Concurrent) (i : Nat) :
    Option Concurrent :=
  match calls[i]? with
  | none => none
  | some (report, filter) =>
    match sys.phase i with
    | .waiting =>
      match AddReport.admission sys.store report filter with
      | .returned true st' => some (sys.move st' i .admitted)
      | .returned false st' => some (sys.move st' i (.finished (REPORT_IGNORED, none)))
      | _ => none
    | .admitted =>
      match AddReport.recording sys.store report with
      | .returned v st' => some (sys.move st' i (.finished v))
      | _ => none
    | .finished _ => none

/-- Run of a schedule: the goroutines named in `sched` take one step each, in that
order. -/
def Concurrent.run (calls : List (Report × Bool)) : Concurrent → List Nat → Option Concurrent
  | sys, [] => some sys
  | sys, i :: rest =>
    match sys.step calls i with
    | none => none
    | some sys' => Concurrent.run calls sys' rest

/-- Goroutines whose second critical section runs during a schedule, in the order in which
they run it. -/
def Concurrent.recorders (calls : List (Report × Bool)) : Concurrent → List Nat → List Nat
  | _, [] => []
  | sys, i :: rest =>
    match sys.step calls i with
    | none => []
    | some sys' =>
      if sys.phase i = Phase.admitted then i :: Concurrent.recorders calls sys' rest
      else Concurrent.recorders calls sys' rest

/-- Observations of the calls, in the order in which a schedule records them. -/
def Concurrent.recorded (calls : List (Report × Bool)) (sys : Concurrent)
    (sched : List Nat) : List Observation :=
  (Concurrent.recorders calls sys sched).filterMap
    (fun i => calls[i]?.map (fun c => c.1.Observation))

/-- Steps that a goroutine in the given phase still has to take. -/
def Phase.stepsLeft : Phase → Nat
  | .waiting => 2
  | .admitted => 1
  | .finished _ => 0

/-- Store in which the first critical section of an accepted report returns, in closed
form. -/
def admittedStore (st : RawHealthStorage) (report : Report) : RawHealthStorage :=
  { Watchlist :=
      if st.Watchlist.contains report.Subject then st.Watchlist
      else st.Watchlist.set report.Subject true
    Locks :=
      match st.Locks.get? report.Subject with
      | some _ => st.Locks
      | none => st.Locks.set report.Subject ⟨false⟩
    Tenants :=
      match st.Tenants.get? report.Subject with
      | some _ => st.Tenants
      | none => st.Tenants.set report.Subject { Subject := report.Subject, Views := GoMap.empty }
    mu := ⟨false⟩ }

/-- What holds of goroutines that run `AddReport` for observer `o` and subject `s` while
the steps of `rest` are still to be taken: the store-wide mutex and the mutex of `s` are
free between steps, every call
passes the Watchlist test, `rest` holds the steps each goroutine still has to take, the
lock and the panorama of `s` exist once a goroutine has left the first section, and the
goroutines that have returned were accepted. -/
structure SchedInv (s : EntityId) (calls : List (Report × Bool)) (sys : Concurrent)
    (rest : List Nat) : Prop where
  free : Free sys.store s
  passes : ∀ c ∈ calls, c.2 = false ∨ sys.store.Watchlist.contains s = true
  counts : ∀ i, rest.count i = if i < calls.length then (sys.phase i).stepsLeft else 0
  held : (∃ i, i < calls.length ∧ sys.phase i = Phase.admitted) →
    (∃ l, sys.store.Locks.get? s = some l) ∧ ∃ p, sys.store.Tenants.get? s = some p
  done : ∀ i v, i < calls.length → sys.phase i = Phase.finished v →
    v = (REPORT_ACCEPTED, none)

/-- Two filtered reports from observer `O` about subject `S`, at times 1 and 2. -/
def twoCalls : List (Report × Bool) :=
  [(⟨"O", "S", ⟨1, "m"⟩⟩, true), (⟨"O", "S", ⟨2, "m"⟩⟩, true)]

/-! ## Facts about Go maps -/

theorem lookupKey_assignKey_self {K V : Type} [DecidableEq K] (k : K) (v : V)
    (l : List (K × V)) : lookupKey k (assignKey k v l) = some v := by
  induction l with
  | nil => simp [assignKey, lookupKey]
  | cons p rest ih =>
    obtain ⟨k', v'⟩ := p
    by_cases h : k' = k
    · simp [assignKey, lookupKey, h]
    · simp [assignKey, lookupKey, h, ih]

theorem lookupKey_assignKey_ne {K V : Type} [DecidableEq K] {k k' : K} (v : V)
    (l : List (K × V)) (hk : k' ≠ k) :
    lookupKey k' (assignKey k v l) = lookupKey k' l := by
  induction l with
  | nil => simp [assignKey, lookupKey, hk.symm]
  | cons p rest ih =>
    obtain ⟨k₀, v₀⟩ := p
    by_cases h : k₀ = k
    · subst h
      simp [assignKey, lookupKey, hk.symm]
    · by_cases h2 : k₀ = k'
      · subst h2
        simp [assignKey, lookupKey, h]
      · simp [assignKey, lookupKey, h, h2, ih]

theorem lookupKey_eq_none_of_not_mem {K V : Type} [DecidableEq K] {k : K}
    {l : List (K × V)} (h : k ∉ l.map Prod.fst) : lookupKey k l = none := by
  induction l with
  | nil => rfl
  | cons p rest ih =>
    obtain ⟨k₀, v₀⟩ := p
    simp only [List.map_cons, List.mem_cons, not_or] at h
    have h1 : ¬ k₀ = k := fun e => h.1 e.symm
    simp [lookupKey, h1, ih h.2]

theorem lookupKey_deleteKey_self {K V : Type} [DecidableEq K] (k : K)
    (l : List (K × V)) (hl : (l.map Prod.fst).Nodup) : lookupKey k (deleteKey k l) = none := by
  induction l with
  | nil => rfl
  | cons p rest ih =>
    obtain ⟨k₀, v₀⟩ := p
    simp only [List.map_cons, List.nodup_cons] at hl
    by_cases h : k₀ = k
    · subst h
      simp only [deleteKey, if_true]
      exact lookupKey_eq_none_of_not_mem hl.1
    · simp [deleteKey, lookupKey, h, ih hl.2]

theorem lookupKey_deleteKey_ne {K V : Type} [DecidableEq K] {k k' : K}
    (l : List (K × V)) (hk : k' ≠ k) : lookupKey k' (deleteKey k l) = lookupKey k' l := by
  induction l with
  | nil => rfl
  | cons p rest ih =>
    obtain ⟨k₀, v₀⟩ := p
    by_cases h : k₀ = k
    · subst h
      simp [deleteKey, lookupKey, hk.symm]
    · by_cases h2 : k₀ = k'
      · subst h2
        simp [deleteKey, lookupKey, h]
      · simp [deleteKey, lookupKey, h, h2, ih]

theorem assignKey_eq_self {K V : Type} [DecidableEq K] {k : K} {v : V}
    {l : List (K × V)} (h : lookupKey k l = some v) : assignKey k v l = l := by
  induction l with
  | nil => simp [lookupKey] at h
  | cons p rest ih =>
    obtain ⟨k₀, v₀⟩ := p
    by_cases hk : k₀ = k
    · subst hk
      simp only [lookupKey, if_true, Option.some.injEq] at h
      simp [assignKey, h]
    · simp only [lookupKey, hk, if_false] at h
      simp [assignKey, hk, ih h]

theorem assignKey_assignKey {K V : Type} [DecidableEq K] (k : K) (v w : V)
    (l : List (K × V)) : assignKey k w (assignKey k v l) = assignKey k w l := by
  induction l with
  | nil => simp [assignKey]
  | cons p rest ih =>
    obtain ⟨k₀, v₀⟩ := p
    by_cases hk : k₀ = k
    · simp [assignKey, hk]
    · simp [assignKey, hk, ih]

theorem lookupKey_eq_some_iff_mem {K V : Type} [DecidableEq K] {k : K} {v : V}
    {l : List (K × V)} (hl : (l.map Prod.fst).Nodup) :
    lookupKey k l = some v ↔ (k, v) ∈ l := by
  induction l with
  | nil => simp [lookupKey]
  | cons p rest ih =>
    obtain ⟨k₀, v₀⟩ := p
    simp only [List.map_cons, List.nodup_cons] at hl
    by_cases hk : k₀ = k
    · subst hk
      simp only [lookupKey, if_true, Option.some.injEq, List.mem_cons, Prod.mk.injEq, true_and]
      constructor
      · intro h; exact Or.inl h.symm
      · rintro (h | h)
        · exact h.symm
        · exact absurd (List.mem_map_of_mem Prod.fst h) hl.1
    · have hk' : ¬ k = k₀ := fun e => hk e.symm
      simp [lookupKey, hk, hk', ih hl.2]

namespace GoMap

variable {K V : Type} [DecidableEq K]

@[simp] theorem get?_empty (k : K) : (empty : GoMap K V).get? k = none := rfl

@[simp] theorem get?_set_self (m : GoMap K V) (k : K) (v : V) : (m.set k v).get? k = some v :=
  lookupKey_assignKey_self k v m.entries

theorem get?_set_ne (m : GoMap K V) {k k' : K} (v : V) (h : k' ≠ k) :
    (m.set k v).get? k' = m.get? k' :=
  lookupKey_assignKey_ne v m.entries h

@[simp] theorem get?_delete_self (m : GoMap K V) (k : K) : (m.delete k).get? k = none :=
  lookupKey_deleteKey_self k m.entries m.nodup

theorem get?_delete_ne (m : GoMap K V) {k k' : K} (h : k' ≠ k) :
    (m.delete k).get? k' = m.get? k' :=
  lookupKey_deleteKey_ne m.entries h

theorem set_eq_self {m : GoMap K V} {k : K} {v : V} (h : m.get? k = some v) :
    m.set k v = m :=
  ext_entries (assignKey_eq_self h)

@[simp] theorem set_set (m : GoMap K V) (k : K) (v w : V) :
    (m.set k v).set k w = m.set k w :=
  ext_entries (assignKey_assignKey k v w m.entries)

theorem get?_eq_some_iff_mem (m : GoMap K V) (k : K) (v : V) :
    m.get? k = some v ↔ (k, v) ∈ m.entries :=
  lookupKey_eq_some_iff_mem m.nodup

@[simp] theorem contains_set_self (m : GoMap K V) (k : K) (v : V) :
    (m.set k v).contains k = true := by
  simp [contains]

@[simp] theorem contains_delete_self (m : GoMap K V) (k : K) :
    (m.delete k).contains k = false := by
  simp [contains]

end GoMap

/-! ## Single calls -/

theorem AddReport_ignored (st : RawHealthStorage) (report : Report)
    (hmu : st.mu.locked = false) (hw : st.Watchlist.contains report.Subject = false) :
    AddReport st report true = .returned (REPORT_IGNORED, none) st := by
  obtain ⟨T, L, W, ⟨m⟩⟩ := st
  simp only at hmu hw
  subst hmu
  simp [AddReport, Mutex.Lock, Mutex.Unlock, hw]

theorem AddReport_accepted (st : RawHealthStorage) (report : Report) (filter : Bool)
    (hfree : Free st report.Subject)
    (hadm : filter = false ∨ st.Watchlist.contains report.Subject = true) :
    AddReport st report filter = .returned (REPORT_ACCEPTED, none) (acceptedStore st report) := by
  obtain ⟨T, L, W, ⟨m⟩⟩ := st
  obtain ⟨hmu, hl⟩ := hfree
  simp only at hmu hl hadm
  subst hmu
  have hf : W.contains report.Subject = false → filter = false := by
    intro h
    rcases hadm with h' | h'
    · exact h'
    · rw [h] at h'; cases h'
  cases hL : L.get? report.Subject with
  | none =>
    cases hT : T.get? report.Subject with
    | none =>
      cases hW : W.contains report.Subject
      · simp [AddReport, acceptedStore, panoramaFor, Mutex.Lock, Mutex.Unlock, hL, hT, hW,
          hf hW]
      · simp [AddReport, acceptedStore, panoramaFor, Mutex.Lock, Mutex.Unlock, hL, hT, hW]
    | some p =>
      cases hW : W.contains report.Subject
      · simp [AddReport, acceptedStore, panoramaFor, Mutex.Lock, Mutex.Unlock, hL, hT, hW,
          hf hW]
      · simp [AddReport, acceptedStore, panoramaFor, Mutex.Lock, Mutex.Unlock, hL, hT, hW]
  | some l =>
    have hlf := hl l hL
    obtain ⟨b⟩ := l
    simp only at hlf
    subst hlf
    cases hT : T.get? report.Subject with
    | none =>
      cases hW : W.contains report.Subject
      · simp [AddReport, acceptedStore, panoramaFor, Mutex.Lock, Mutex.Unlock, hL, hT, hW,
          hf hW]
      · simp [AddReport, acceptedStore, panoramaFor, Mutex.Lock, Mutex.Unlock, hL, hT, hW]
    | some p =>
      cases hW : W.contains report.Subject
      · simp [AddReport, acceptedStore, panoramaFor, Mutex.Lock, Mutex.Unlock, hL, hT, hW,
          hf hW]
      · simp [AddReport, acceptedStore, panoramaFor, Mutex.Lock, Mutex.Unlock, hL, hT, hW]

theorem getLast?_tail_of_length {α : Type} (l : List α) (h : 1 < l.length) :
    l.tail.getLast? = l.getLast? := by
  cases l with
  | nil => simp at h
  | cons a t =>
    cases t with
    | nil => simp at h
    | cons b u => simp [List.getLast?_cons_cons]

theorem getLast?_pushTrim (obs : List Observation) (ob : Observation) :
    (pushTrim obs ob).getLast? = some ob := by
  unfold pushTrim
  split
  · rename_i h
    rw [getLast?_tail_of_length _ (by simp only [MaxReportPerView] at h; omega)]
    simp
  · simp

theorem recordObservation_view (p : Panorama) (report : Report) :
    ∃ v, (recordObservation p report).Views.get? report.Observer = some v ∧
      v.Observations = pushTrim ((p.obsOf report.Observer).getD []) report.Observation := by
  unfold recordObservation
  refine ⟨_, GoMap.get?_set_self _ _ _, ?_⟩
  cases h : p.Views.get? report.Observer <;> simp [Panorama.obsOf, pushTrim, h]

theorem GetPanorama_eq (st : RawHealthStorage) (subject : EntityId)
    (hmu : st.mu.locked = false) :
    GetPanorama st subject = .returned
      (if st.Watchlist.contains subject then
        match st.Locks.get? subject with
        | some l =>
          match st.Tenants.get? subject with
          | some panorama => (some panorama, some l)
          | none => (none, none)
        | none => (none, none)
      else (none, none)) st := by
  obtain ⟨T, L, W, ⟨m⟩⟩ := st
  simp only at hmu
  subst hmu
  simp [GetPanorama, Mutex.Lock, Mutex.Unlock]

/-! ## The scan of `GetLatestReport` -/

theorem scanStep_eq_some {acc acc' : Scan} {o : EntityId} {v : View}
    (h : scanStep acc o v = some acc') :
    ∃ ob, v.Observations.getLast? = some ob ∧
      ((acc.first = true ∨ acc.max_ts < ob.Ts) ∧
          acc' = { max_ts := ob.Ts, recent_ob := some ob, who := o, first := false } ∨
        (acc.first = false ∧ ob.Ts ≤ acc.max_ts) ∧ acc' = acc) := by
  unfold scanStep at h
  cases hv : v.Observations.getLast? with
  | none => simp [hv] at h
  | some ob =>
    refine ⟨ob, rfl, ?_⟩
    simp only [hv] at h
    by_cases hc : (acc.first || Before acc.max_ts ob.Ts) = true
    · rw [if_pos hc] at h
      left
      refine ⟨?_, (Option.some.inj h).symm⟩
      simpa [Before] using hc
    · rw [if_neg hc] at h
      right
      refine ⟨?_, (Option.some.inj h).symm⟩
      simpa [Before] using hc

theorem scanViews_later (l : List (EntityId × View)) :
    ∀ acc acc' : Scan, acc.first = false → scanViews acc l = some acc' →
      (acc' = acc ∨ Picked l acc') ∧ acc.max_ts ≤ acc'.max_ts ∧
        TailsBounded l acc'.max_ts ∧ acc'.first = false := by
  induction l with
  | nil =>
    intro acc acc' hf h
    simp only [scanViews, Option.some.injEq] at h
    subst h
    exact ⟨Or.inl rfl, le_refl _, fun o v hm => by simp at hm, hf⟩
  | cons e rest ih =>
    obtain ⟨o, v⟩ := e
    intro acc acc' hf h
    simp only [scanViews] at h
    cases hs : scanStep acc o v with
    | none => simp [hs] at h
    | some acc1 =>
      simp only [hs] at h
      obtain ⟨ob, hob, hcase⟩ := scanStep_eq_some hs
      have hf1 : acc1.first = false := by
        rcases hcase with ⟨_, e⟩ | ⟨_, e⟩ <;> simp [e, hf]
      obtain ⟨hpick, hle, hbd, hfirst⟩ := ih acc1 acc' hf1 h
      have hacc1 : acc.max_ts ≤ acc1.max_ts ∧ ob.Ts ≤ acc1.max_ts := by
        rcases hcase with ⟨hc, e⟩ | ⟨hc, e⟩
        · rcases hc with hc | hc
          · simp [hf] at hc
          · subst e; exact ⟨le_of_lt hc, le_refl _⟩
        · subst e; exact ⟨le_refl _, hc.2⟩
      refine ⟨?_, le_trans hacc1.1 hle, ?_, hfirst⟩
      · rcases hpick with e | ⟨o', v', ob', hm, hl, e⟩
        · rcases hcase with ⟨_, e1⟩ | ⟨_, e1⟩
          · right
            exact ⟨o, v, ob, List.mem_cons_self _ _, hob, by rw [e, e1]⟩
          · left; rw [e, e1]
        · right
          exact ⟨o', v', ob', List.mem_cons_of_mem _ hm, hl, e⟩
      · intro o' v' hm
        rcases List.mem_cons.mp hm with e | hm'
        · cases e
          exact ⟨ob, hob, le_trans hacc1.2 hle⟩
        · exact hbd o' v' hm'

theorem scanViews_first (l : List (EntityId × View)) (acc acc' : Scan)
    (hf : acc.first = true) (hl : l ≠ []) (h : scanViews acc l = some acc') :
    Picked l acc' ∧ TailsBounded l acc'.max_ts := by
  cases l with
  | nil => exact absurd rfl hl
  | cons e rest =>
    obtain ⟨o, v⟩ := e
    simp only [scanViews] at h
    cases hs : scanStep acc o v with
    | none => simp [hs] at h
    | some acc1 =>
      simp only [hs] at h
      obtain ⟨ob, hob, hcase⟩ := scanStep_eq_some hs
      have e1 : acc1 = { max_ts := ob.Ts, recent_ob := some ob, who := o, first := false } := by
        rcases hcase with ⟨_, e⟩ | ⟨hc, _⟩
        · exact e
        · rw [hf] at hc; cases hc.1
      have hf1 : acc1.first = false := by rw [e1]
      obtain ⟨hpick, hle, hbd, _⟩ := scanViews_later rest acc1 acc' hf1 h
      constructor
      · rcases hpick with e | ⟨o', v', ob', hm, hl', e⟩
        · exact ⟨o, v, ob, List.mem_cons_self _ _, hob, by rw [e, e1]⟩
        · exact ⟨o', v', ob', List.mem_cons_of_mem _ hm, hl', e⟩
      · intro o' v' hm
        rcases List.mem_cons.mp hm with e | hm'
        · cases e
          refine ⟨ob, hob, ?_⟩
          have : acc1.max_ts = ob.Ts := by rw [e1]
          rw [← this]; exact hle
        · exact hbd o' v' hm'

theorem scanViews_isSome (l : List (EntityId × View))
    (hne : ∀ o v, (o, v) ∈ l → v.Observations ≠ []) :
    ∀ acc : Scan, ∃ acc', scanViews acc l = some acc' := by
  induction l with
  | nil => intro acc; exact ⟨acc, rfl⟩
  | cons e rest ih =>
    obtain ⟨o, v⟩ := e
    intro acc
    have hv : v.Observations ≠ [] := hne o v (List.mem_cons_self _ _)
    obtain ⟨ob, hob⟩ : ∃ ob, v.Observations.getLast? = some ob := by
      cases hlast : v.Observations.getLast? with
      | none => exact absurd (List.getLast?_eq_none_iff.mp hlast) hv
      | some ob => exact ⟨ob, rfl⟩
    have hrest := fun acc1 => ih (fun o' v' hm => hne o' v' (List.mem_cons_of_mem _ hm)) acc1
    simp only [scanViews, scanStep, hob]
    by_cases hc : (acc.first || Before acc.max_ts ob.Ts) = true
    · rw [if_pos hc]; exact hrest _
    · rw [if_neg hc]; exact hrest _

theorem scanViews_recent_none (l : List (EntityId × View)) (acc acc' : Scan)
    (hf : acc.first = true) (h : scanViews acc l = some acc') (hr : acc'.recent_ob = none) :
    l = [] := by
  by_contra hl
  obtain ⟨⟨o, v, ob, _, _, e⟩, _⟩ := scanViews_first l acc acc' hf hl h
  rw [e] at hr
  cases hr

theorem GetLatestReport_eq (range : RangeOrder) (st : RawHealthStorage) (s : EntityId)
    (l : Mutex) (p : Panorama) (hfree : Free st s) (hL : st.Locks.get? s = some l)
    (hT : st.Tenants.get? s = some p) :
    GetLatestReport range st s =
      latestOutcome st s (scanViews scanInit (range.visit p.Views.entries)) := by
  obtain ⟨T, L, W, ⟨m⟩⟩ := st
  obtain ⟨hmu, hl⟩ := hfree
  simp only at hmu hl hL hT
  subst hmu
  have hlf := hl l hL
  obtain ⟨b⟩ := l
  simp only at hlf
  subst hlf
  have hset : L.set s { locked := false } = L := GoMap.set_eq_self hL
  cases hscan : scanViews scanInit (range.visit p.Views.entries) with
  | none =>
    simp [GetLatestReport, latestOutcome, unlockSubject, Mutex.Lock, Mutex.Unlock, hL, hT,
      hset, hscan]
  | some acc =>
    cases hr : acc.recent_ob with
    | none =>
      simp [GetLatestReport, latestOutcome, unlockSubject, Mutex.Lock, Mutex.Unlock, hL, hT,
        hset, hscan, hr]
    | some ob =>
      simp [GetLatestReport, latestOutcome, unlockSubject, Mutex.Lock, Mutex.Unlock, hL, hT,
        hset, hscan, hr]

theorem GetLatestReport_returned_some (range : RangeOrder) (st st' : RawHealthStorage)
    (s : EntityId) (r : Report) (h : GetLatestReport range st s = .returned (some r) st') :
    ∃ p acc, st.Tenants.get? s = some p ∧
      scanViews scanInit (range.visit p.Views.entries) = some acc ∧
      acc.recent_ob = some r.Observation ∧ r.Observer = acc.who ∧ r.Subject = s := by
  unfold GetLatestReport at h
  cases hmu : st.mu.Lock with
  | none => simp [hmu] at h
  | some mu1 =>
    simp only [hmu] at h
    cases hL : st.Locks.get? s with
    | none => simp [hL] at h
    | some l =>
      simp only [hL] at h
      cases hun : mu1.Unlock with
      | none => simp [hun] at h
      | some mu2 =>
        simp only [hun] at h
        cases hll : l.Lock with
        | none => simp [hll] at h
        | some l1 =>
          simp only [hll] at h
          cases hT : st.Tenants.get? s with
          | none => simp [hT] at h
          | some p =>
            simp only [hT] at h
            cases hscan : scanViews scanInit (range.visit p.Views.entries) with
            | none => simp [hscan] at h
            | some acc =>
              simp only [hscan] at h
              cases hr : acc.recent_ob with
              | none => simp [hr] at h
              | some ob =>
                simp only [hr, Exec.returned.injEq, Option.some.injEq] at h
                obtain ⟨h1, _⟩ := h
                subst h1
                exact ⟨p, acc, rfl, hscan, hr, rfl, rfl⟩

theorem le_last_of_pairwise (l : List Observation) (z : Observation)
    (hp : l.Pairwise (fun a b => a.Ts ≤ b.Ts)) (hz : l.getLast? = some z) :
    ∀ x ∈ l, x.Ts ≤ z.Ts := by
  induction l with
  | nil => intro x hx; cases hx
  | cons a t ih =>
    intro x hx
    cases t with
    | nil =>
      simp only [List.getLast?_singleton, Option.some.injEq] at hz
      simp only [List.mem_singleton] at hx
      subst hz; subst hx; exact le_refl _
    | cons b u =>
      rw [List.getLast?_cons_cons] at hz
      have hp' := List.pairwise_cons.mp hp
      have hzmem : z ∈ b :: u := List.mem_of_getLast?_eq_some hz
      rcases List.mem_cons.mp hx with e | hm
      · subst e; exact hp'.1 z hzmem
      · exact ih hp'.2 hz x hm

/-! ## Runs of calls -/

theorem AddSubject_returned? (st : RawHealthStorage) (s : EntityId) :
    (AddSubject st s).returned? = none := by
  obtain ⟨T, L, W, ⟨m⟩⟩ := st
  cases m <;> simp [AddSubject, Mutex.Lock, Exec.returned?]

theorem RemoveSubject_returned? (st : RawHealthStorage) (s : EntityId) (clean : Bool) :
    (RemoveSubject st s clean).returned? = none := by
  obtain ⟨T, L, W, ⟨m⟩⟩ := st
  cases m <;> cases clean <;> simp [RemoveSubject, Mutex.Lock, Exec.returned?]

theorem AddReport_returned (st st' : RawHealthStorage) (report : Report) (filter : Bool)
    (v : Int × Option GoError) (h : AddReport st report filter = .returned v st') :
    (v = (REPORT_IGNORED, none) ∧ st' = st) ∨
    (v = (REPORT_ACCEPTED, none) ∧ st' = acceptedStore st report) := by
  by_cases hmu : st.mu.locked = false
  · by_cases hgate : st.Watchlist.contains report.Subject = false ∧ filter = true
    · obtain ⟨hw, hf⟩ := hgate
      subst hf
      rw [AddReport_ignored st report hmu hw] at h
      simp only [Exec.returned.injEq] at h
      exact Or.inl ⟨h.1.symm, h.2.symm⟩
    · have hadm : filter = false ∨ st.Watchlist.contains report.Subject = true := by
        cases hf : filter
        · exact Or.inl rfl
        · right
          cases hw : st.Watchlist.contains report.Subject
          · exact absurd ⟨hw, hf⟩ hgate
          · rfl
      by_cases hl : ∀ l, st.Locks.get? report.Subject = some l → l.locked = false
      · rw [AddReport_accepted st report filter ⟨hmu, hl⟩ hadm] at h
        simp only [Exec.returned.injEq] at h
        exact Or.inr ⟨h.1.symm, h.2.symm⟩
      · exfalso
        push_neg at hl
        obtain ⟨l, hL, hlocked⟩ := hl
        obtain ⟨T, L, W, ⟨m⟩⟩ := st
        obtain ⟨b⟩ := l
        simp only at hmu hL hlocked hadm
        subst hmu
        simp only [Bool.not_eq_false] at hlocked
        subst hlocked
        rcases hadm with hf | hw
        · subst hf
          cases hT : T.get? report.Subject <;> cases hW : W.contains report.Subject <;>
            simp [AddReport, Mutex.Lock, Mutex.Unlock, hL, hT, hW] at h
        · cases hT : T.get? report.Subject <;>
            simp [AddReport, Mutex.Lock, Mutex.Unlock, hL, hT, hw] at h
  · exfalso
    obtain ⟨T, L, W, ⟨m⟩⟩ := st
    simp only [Bool.not_eq_false] at hmu
    subst hmu
    simp [AddReport, Mutex.Lock] at h

theorem GetPanorama_returned? (st st' : RawHealthStorage) (s : EntityId)
    (h : (GetPanorama st s).returned? = some st') : st' = st := by
  by_cases hmu : st.mu.locked = false
  · rw [GetPanorama_eq st s hmu] at h
    simp only [Exec.returned?, Option.some.injEq] at h
    exact h.symm
  · exfalso
    obtain ⟨T, L, W, ⟨m⟩⟩ := st
    simp only [Bool.not_eq_false] at hmu
    subst hmu
    simp [GetPanorama, Mutex.Lock, Exec.returned?] at h

theorem GetLatestReport_Tenants (range : RangeOrder) (st : RawHealthStorage) (s : EntityId) :
    (GetLatestReport range st s).state.Tenants = st.Tenants := by
  unfold GetLatestReport
  cases hmu : st.mu.Lock with
  | none => rfl
  | some mu1 =>
    simp only
    cases hL : st.Locks.get? s with
    | none => rfl
    | some l =>
      simp only
      cases hun : mu1.Unlock with
      | none => rfl
      | some mu2 =>
        simp only
        cases hll : l.Lock with
        | none => rfl
        | some l1 =>
          have hl1 : l1 = ⟨true⟩ := by
            unfold Mutex.Lock at hll
            split at hll
            · cases hll
            · exact (Option.some.inj hll).symm
          subst hl1
          simp only [unlockSubject, Mutex.Unlock, if_true, Option.getD_some]
          cases hT : st.Tenants.get? s with
          | none => rfl
          | some p =>
            simp only
            cases hscan : scanViews scanInit (range.visit p.Views.entries) with
            | none => rfl
            | some acc =>
              simp only
              cases hr : acc.recent_ob <;> rfl

theorem Exec.state_of_returned? {α : Type} {e : Exec α} {st' : RawHealthStorage}
    (h : e.returned? = some st') : e.state = st' := by
  cases e <;> simp [Exec.returned?, Exec.state] at h ⊢
  exact h

theorem panoramaFor_obsOf (st : RawHealthStorage) (s o : EntityId) :
    (panoramaFor st s).obsOf o = obsAt st s o := by
  unfold panoramaFor obsAt
  cases st.Tenants.get? s with
  | none => simp [Panorama.obsOf]
  | some p => simp

theorem recordObservation_obsOf_ne (p : Panorama) (report : Report) (o : EntityId)
    (h : o ≠ report.Observer) : (recordObservation p report).obsOf o = p.obsOf o := by
  unfold recordObservation Panorama.obsOf
  simp only
  rw [GoMap.get?_set_ne _ _ h]

theorem recordObservation_obsOf_self (p : Panorama) (report : Report) :
    (recordObservation p report).obsOf report.Observer =
      some (pushTrim ((p.obsOf report.Observer).getD []) report.Observation) := by
  obtain ⟨v, hv, hobs⟩ := recordObservation_view p report
  simp [Panorama.obsOf, hv, hobs]

theorem obsAt_acceptedStore (st : RawHealthStorage) (report : Report) (s o : EntityId) :
    obsAt (acceptedStore st report) s o =
      if report.Observer = o ∧ report.Subject = s then
        some (pushTrim ((obsAt st s o).getD []) report.Observation)
      else obsAt st s o := by
  by_cases hs : report.Subject = s
  · subst hs
    by_cases ho : report.Observer = o
    · subst ho
      simp [obsAt, acceptedStore, recordObservation_obsOf_self, panoramaFor_obsOf]
    · have ho' : o ≠ report.Observer := fun e => ho e.symm
      simp [obsAt, acceptedStore, recordObservation_obsOf_ne _ _ _ ho', panoramaFor_obsOf, ho]
  · have hs' : s ≠ report.Subject := fun e => hs e.symm
    simp [obsAt, acceptedStore, GoMap.get?_set_ne _ _ hs', hs]

/-- Effect of one returning call on the view of observer `o` on subject `s`. -/
theorem obsAt_step (o s : EntityId) (st st' : RawHealthStorage) (c : Call)
    (h : c.run st = some st') :
    obsAt st' s o = applyObs (obsAt st s o) (c.accepts o s st).toList := by
  cases c with
  | addSubject subject => simp [Call.run, AddSubject_returned?] at h
  | removeSubject subject clean => simp [Call.run, RemoveSubject_returned?] at h
  | addReport report filter =>
    simp only [Call.run] at h
    cases hexec : AddReport st report filter with
    | blocked st₁ => simp [hexec, Exec.returned?] at h
    | panicked st₁ => simp [hexec, Exec.returned?] at h
    | returned v st₁ =>
      simp only [hexec, Exec.returned?, Option.some.injEq] at h
      subst h
      rcases AddReport_returned st st₁ report filter v hexec with ⟨hv, hst⟩ | ⟨hv, hst⟩
      · subst hv; subst hst
        simp [Call.accepts, hexec, Exec.value?, applyObs, REPORT_IGNORED, REPORT_ACCEPTED]
      · subst hv; subst hst
        rw [obsAt_acceptedStore]
        by_cases hc : report.Observer = o ∧ report.Subject = s
        · simp [Call.accepts, hexec, Exec.value?, applyObs, hc]
        · have hc' : ¬ (report.Observer = o ∧ report.Subject = s ∧
              (AddReport st report filter).value? = some (REPORT_ACCEPTED, none)) :=
            fun hh => hc ⟨hh.1, hh.2.1⟩
          simp only [Call.accepts, if_neg hc, if_neg hc']
          simp [applyObs]
  | getPanorama subject =>
    simp only [Call.run] at h
    rw [GetPanorama_returned? st st' subject h]
    simp [Call.accepts, applyObs]
  | getLatestReport range subject =>
    simp only [Call.run] at h
    have hT := GetLatestReport_Tenants range st subject
    rw [Exec.state_of_returned? h] at hT
    simp [Call.accepts, applyObs, obsAt, hT]

theorem applyObs_append (cur : Option (List Observation)) (a b : List Observation) :
    applyObs cur (a ++ b) = applyObs (applyObs cur a) b := by
  simp [applyObs, List.foldl_append]

/-- Effect of a run of returning calls on the view of observer `o` on subject `s`. -/
theorem obsAt_runCalls (o s : EntityId) (calls : List Call) :
    ∀ st st' : RawHealthStorage, runCalls st calls = some st' →
      obsAt st' s o = applyObs (obsAt st s o) (acceptedObs o s st calls) := by
  induction calls with
  | nil =>
    intro st st' h
    simp only [runCalls, Option.some.injEq] at h
    subst h
    simp [acceptedObs, applyObs]
  | cons c cs ih =>
    intro st st' h
    simp only [runCalls] at h
    cases hc : c.run st with
    | none => simp [hc] at h
    | some st₁ =>
      simp only [hc] at h
      simp only [acceptedObs, hc]
      rw [applyObs_append, ← obsAt_step o s st st₁ c hc]
      exact ih st₁ st' h

theorem pushTrim_drop (obs : List Observation) (x : Observation) :
    pushTrim (obs.drop (obs.length - MaxReportPerView)) x =
      (obs ++ [x]).drop ((obs ++ [x]).length - MaxReportPerView) := by
  unfold pushTrim
  simp only [MaxReportPerView, List.length_append, List.length_drop, List.length_singleton]
  by_cases h : obs.length < 5
  · have h1 : obs.length - 5 = 0 := by omega
    have h2 : obs.length + 1 - 5 = 0 := by omega
    rw [h1, h2]
    simp only [List.drop_zero, Nat.sub_zero]
    rw [if_neg (by omega)]
  · have h1 : obs.length - (obs.length - 5) + 1 > 5 := by omega
    rw [if_pos h1]
    have h2 : obs.length + 1 - 5 = (obs.length - 5) + 1 := by omega
    rw [h2, ← List.drop_one, ← List.drop_append_of_le_length (by omega), List.drop_drop]

theorem applyObs_none (obs : List Observation) :
    applyObs none obs =
      if obs = [] then none else some (obs.drop (obs.length - MaxReportPerView)) := by
  induction obs using List.reverseRecOn with
  | nil => simp [applyObs]
  | append_singleton l x ih =>
    rw [applyObs_append, ih]
    have hne : l ++ [x] ≠ [] := by simp
    rw [if_neg hne]
    by_cases hl : l = []
    · subst hl
      simp [applyObs, pushTrim, MaxReportPerView]
    · rw [if_neg hl]
      simp only [applyObs, List.foldl_cons, List.foldl_nil, Option.getD_some]
      rw [pushTrim_drop]

theorem NewRawHealthStorage_Locks (subjects : List EntityId) (s : EntityId)
    (hs : s ∈ subjects) : (NewRawHealthStorage subjects).Locks.contains s = true := by
  have key : ∀ (l : List EntityId) (st : RawHealthStorage),
      (s ∈ l ∨ st.Locks.contains s = true) → (l.foldl newSubject st).Locks.contains s = true := by
    intro l
    induction l with
    | nil =>
      intro st h
      rcases h with h | h
      · cases h
      · exact h
    | cons a t ih =>
      intro st h
      simp only [List.foldl_cons]
      apply ih
      by_cases ha : s = a
      · right
        subst ha
        simp [newSubject]
      · rcases h with h | h
        · rcases List.mem_cons.mp h with e | hm
          · exact absurd e ha
          · exact Or.inl hm
        · right
          simp only [newSubject, GoMap.contains, GoMap.get?_set_ne _ _ ha]
          exact h
  exact key subjects _ (Or.inl hs)

/-! ## Invariants of reachable stores -/

theorem MapAll_set {P : EntityId → Panorama → Prop} {T : GoMap EntityId Panorama}
    (hT : MapAll P T) (k : EntityId) (p : Panorama) (hp : P k p) : MapAll P (T.set k p) := by
  intro s q hq
  by_cases hs : s = k
  · subst hs
    rw [GoMap.get?_set_self] at hq
    cases hq
    exact hp
  · rw [GoMap.get?_set_ne _ _ hs] at hq
    exact hT s q hq

theorem MapAll_delete {P : EntityId → Panorama → Prop} {T : GoMap EntityId Panorama}
    (hT : MapAll P T) (k : EntityId) : MapAll P (T.delete k) := by
  intro s q hq
  by_cases hs : s = k
  · subst hs
    rw [GoMap.get?_delete_self] at hq
    cases hq
  · rw [GoMap.get?_delete_ne _ hs] at hq
    exact hT s q hq

theorem AddSubject_state_Tenants (st : RawHealthStorage) (s : EntityId) :
    (AddSubject st s).state.Tenants = st.Tenants := by
  obtain ⟨T, L, W, ⟨m⟩⟩ := st
  cases m <;> simp [AddSubject, Mutex.Lock, Exec.state]

theorem RemoveSubject_state_Tenants (st : RawHealthStorage) (s : EntityId) (clean : Bool) :
    (RemoveSubject st s clean).state.Tenants = st.Tenants ∨
      (RemoveSubject st s clean).state.Tenants = st.Tenants.delete s := by
  obtain ⟨T, L, W, ⟨m⟩⟩ := st
  cases m <;> cases clean <;> simp [RemoveSubject, Mutex.Lock, Exec.state]

theorem GetPanorama_state_Tenants (st : RawHealthStorage) (s : EntityId) :
    (GetPanorama st s).state.Tenants = st.Tenants := by
  obtain ⟨T, L, W, ⟨m⟩⟩ := st
  cases m <;> simp [GetPanorama, Mutex.Lock, Mutex.Unlock, Exec.state]

theorem AddReport_state_Tenants (st : RawHealthStorage) (report : Report) (filter : Bool) :
    (AddReport st report filter).state.Tenants = st.Tenants ∨
    (AddReport st report filter).state.Tenants =
      st.Tenants.set report.Subject (panoramaFor st report.Subject) ∨
    (AddReport st report filter).state.Tenants =
      st.Tenants.set report.Subject
        (recordObservation (panoramaFor st report.Subject) report) := by
  by_cases hmu : st.mu.locked = false
  · by_cases hgate : st.Watchlist.contains report.Subject = false ∧ filter = true
    · obtain ⟨hw, hf⟩ := hgate
      subst hf
      rw [AddReport_ignored st report hmu hw]
      exact Or.inl rfl
    · have hadm : filter = false ∨ st.Watchlist.contains report.Subject = true := by
        cases hf : filter
        · exact Or.inl rfl
        · right
          cases hw : st.Watchlist.contains report.Subject
          · exact absurd ⟨hw, hf⟩ hgate
          · rfl
      by_cases hl : ∀ l, st.Locks.get? report.Subject = some l → l.locked = false
      · rw [AddReport_accepted st report filter ⟨hmu, hl⟩ hadm]
        exact Or.inr (Or.inr rfl)
      · push_neg at hl
        obtain ⟨l, hL, hlocked⟩ := hl
        obtain ⟨T, L, W, ⟨m⟩⟩ := st
        obtain ⟨b⟩ := l
        simp only at hmu hL hlocked hadm
        subst hmu
        simp only [Bool.not_eq_false] at hlocked
        subst hlocked
        rcases hadm with hf | hw
        · subst hf
          cases hT : T.get? report.Subject <;> cases hW : W.contains report.Subject <;>
            simp [AddReport, Mutex.Lock, Mutex.Unlock, Exec.state, panoramaFor, hL, hT, hW]
        · cases hT : T.get? report.Subject <;>
            simp [AddReport, Mutex.Lock, Mutex.Unlock, Exec.state, panoramaFor, hL, hT, hw]
  · left
    obtain ⟨T, L, W, ⟨m⟩⟩ := st
    simp only [Bool.not_eq_false] at hmu
    subst hmu
    simp [AddReport, Mutex.Lock, Exec.state]

theorem MapAll_panoramaFor {P : EntityId → Panorama → Prop} (st : RawHealthStorage)
    (hnew : ∀ s, P s { Subject := s, Views := GoMap.empty }) (hT : MapAll P st.Tenants)
    (s : EntityId) : P s (panoramaFor st s) := by
  unfold panoramaFor
  cases h : st.Tenants.get? s with
  | none => exact hnew s
  | some p => exact hT s p h

theorem MapAll_newSubject {P : EntityId → Panorama → Prop}
    (hnew : ∀ s, P s { Subject := s, Views := GoMap.empty }) (subjects : List EntityId) :
    ∀ st : RawHealthStorage, MapAll P st.Tenants →
      MapAll P (subjects.foldl newSubject st).Tenants := by
  induction subjects with
  | nil => intro st h; exact h
  | cons a t ih =>
    intro st h
    simp only [List.foldl_cons]
    apply ih
    exact MapAll_set h a _ (hnew a)

/-- A property of panoramas that holds of new panoramas and is kept by the recording of an
observation holds of every panorama of every reachable store. -/
theorem Reachable_MapAll {P : EntityId → Panorama → Prop}
    (hnew : ∀ s, P s { Subject := s, Views := GoMap.empty })
    (hrec : ∀ p report, P report.Subject p → P report.Subject (recordObservation p report))
    (st : RawHealthStorage) (h : Reachable st) : MapAll P st.Tenants := by
  induction h with
  | init subjects =>
    exact MapAll_newSubject hnew subjects _ (fun s p hp => by simp at hp)
  | call st c _ ih =>
    cases c with
    | addSubject subject =>
      simp only [Call.leaves, AddSubject_state_Tenants]
      exact ih
    | removeSubject subject clean =>
      simp only [Call.leaves]
      rcases RemoveSubject_state_Tenants st subject clean with e | e
      · rw [e]; exact ih
      · rw [e]; exact MapAll_delete ih subject
    | addReport report filter =>
      simp only [Call.leaves]
      have hp := MapAll_panoramaFor st hnew ih report.Subject
      rcases AddReport_state_Tenants st report filter with e | e | e
      · rw [e]; exact ih
      · rw [e]; exact MapAll_set ih _ _ hp
      · rw [e]; exact MapAll_set ih _ _ (hrec _ report hp)
    | getPanorama subject =>
      simp only [Call.leaves, GetPanorama_state_Tenants]
      exact ih
    | getLatestReport range subject =>
      simp only [Call.leaves, GetLatestReport_Tenants]
      exact ih

theorem Reachable_runCalls (calls : List Call) :
    ∀ st st' : RawHealthStorage, Reachable st → runCalls st calls = some st' →
      Reachable st' := by
  induction calls with
  | nil =>
    intro st st' h hr
    simp only [runCalls, Option.some.injEq] at hr
    subst hr
    exact h
  | cons c cs ih =>
    intro st st' h hr
    simp only [runCalls] at hr
    cases hc : c.run st with
    | none => simp [hc] at hr
    | some st₁ =>
      simp only [hc] at hr
      refine ih st₁ st' ?_ hr
      have hl : c.leaves st = st₁ := by
        cases c <;> exact Exec.state_of_returned? hc
      rw [← hl]
      exact Reachable.call st c h

theorem recordObservation_get?_ne (p : Panorama) (report : Report) (o : EntityId)
    (h : o ≠ report.Observer) :
    (recordObservation p report).Views.get? o = p.Views.get? o := by
  unfold recordObservation
  simp only
  rw [GoMap.get?_set_ne _ _ h]

theorem recordObservation_get?_self (p : Panorama) (report : Report) :
    ∃ v, (recordObservation p report).Views.get? report.Observer = some v ∧
      v.Observations = pushTrim ((p.obsOf report.Observer).getD []) report.Observation ∧
      ((∃ w, p.Views.get? report.Observer = some w ∧ v.Observer = w.Observer ∧
          v.Subject = w.Subject) ∨
        (p.Views.get? report.Observer = none ∧ v.Observer = report.Observer ∧
          v.Subject = report.Subject)) := by
  unfold recordObservation
  refine ⟨_, GoMap.get?_set_self _ _ _, ?_, ?_⟩
  · cases h : p.Views.get? report.Observer <;> simp [Panorama.obsOf, pushTrim, h]
  · cases h : p.Views.get? report.Observer with
    | none => right; simp
    | some w => left; exact ⟨w, rfl, by simp⟩

theorem pushTrim_length_le (obs : List Observation) (ob : Observation)
    (h : obs.length ≤ MaxReportPerView) : (pushTrim obs ob).length ≤ MaxReportPerView := by
  unfold pushTrim
  simp only [MaxReportPerView] at h ⊢
  split
  · simp only [List.length_tail, List.length_append, List.length_singleton]
    omega
  · rename_i hn
    simp only [List.length_append, List.length_singleton] at hn ⊢
    omega

theorem pushTrim_ne_nil (obs : List Observation) (ob : Observation) :
    pushTrim obs ob ≠ [] := by
  intro h
  have := getLast?_pushTrim obs ob
  rw [h] at this
  cases this

theorem pushTrim_eq_evictToBound (obs : List Observation) (ob : Observation)
    (h : obs.length ≤ MaxReportPerView) : pushTrim obs ob = evictToBound (obs ++ [ob]) := by
  unfold pushTrim evictToBound
  simp only [MaxReportPerView, List.length_append, List.length_singleton] at h ⊢
  split
  · have h5 : obs.length + 1 - 5 = 1 := by omega
    rw [h5, List.drop_one]
  · have h0 : obs.length + 1 - 5 = 0 := by omega
    rw [h0, List.drop_zero]

theorem ViewsBounded_record (p : Panorama) (report : Report)
    (h : ViewsBounded report.Subject p) :
    ViewsBounded report.Subject (recordObservation p report) := by
  intro o v hv
  by_cases ho : o = report.Observer
  · subst ho
    obtain ⟨v', hv', hobs, _⟩ := recordObservation_get?_self p report
    rw [hv'] at hv
    cases hv
    rw [hobs]
    apply pushTrim_length_le
    cases hw : p.Views.get? report.Observer with
    | none => simp [Panorama.obsOf, hw]
    | some w => simpa [Panorama.obsOf, hw] using h _ w hw
  · rw [recordObservation_get?_ne p report o ho] at hv
    exact h o v hv

theorem ViewsNonempty_record (p : Panorama) (report : Report)
    (h : ViewsNonempty report.Subject p) :
    ViewsNonempty report.Subject (recordObservation p report) := by
  intro o v hv
  by_cases ho : o = report.Observer
  · subst ho
    obtain ⟨v', hv', hobs, _⟩ := recordObservation_get?_self p report
    rw [hv'] at hv
    cases hv
    rw [hobs]
    exact pushTrim_ne_nil _ _
  · rw [recordObservation_get?_ne p report o ho] at hv
    exact h o v hv

theorem KeysConsistent_record (p : Panorama) (report : Report)
    (h : KeysConsistent report.Subject p) :
    KeysConsistent report.Subject (recordObservation p report) := by
  refine ⟨h.1, ?_⟩
  intro o v hv
  by_cases ho : o = report.Observer
  · subst ho
    obtain ⟨v', hv', _, hkeys⟩ := recordObservation_get?_self p report
    rw [hv'] at hv
    cases hv
    rcases hkeys with ⟨w, hw, e1, e2⟩ | ⟨_, e1, e2⟩
    · obtain ⟨k1, k2⟩ := h.2 _ w hw
      exact ⟨by rw [e1, k1], by rw [e2, k2]⟩
    · exact ⟨e1, e2⟩
  · rw [recordObservation_get?_ne p report o ho] at hv
    exact h.2 o v hv

theorem GetLatestReport_panicked (range : RangeOrder) (st st' : RawHealthStorage)
    (s : EntityId) (h : GetLatestReport range st s = .panicked st') :
    ∃ p, st.Tenants.get? s = some p ∧
      scanViews scanInit (range.visit p.Views.entries) = none := by
  unfold GetLatestReport at h
  cases hmu : st.mu.Lock with
  | none => simp [hmu] at h
  | some mu1 =>
    have hmu1 : mu1 = ⟨true⟩ := by
      unfold Mutex.Lock at hmu
      split at hmu
      · cases hmu
      · exact (Option.some.inj hmu).symm
    subst hmu1
    simp only [hmu, Mutex.Unlock, if_true] at h
    cases hL : st.Locks.get? s with
    | none => simp [hL] at h
    | some l =>
      simp only [hL] at h
      cases hll : l.Lock with
      | none => simp [hll] at h
      | some l1 =>
        simp only [hll] at h
        cases hT : st.Tenants.get? s with
        | none => simp [hT] at h
        | some p =>
          simp only [hT] at h
          cases hscan : scanViews scanInit (range.visit p.Views.entries) with
          | none => exact ⟨p, rfl, hscan⟩
          | some acc =>
            simp only [hscan] at h
            cases hr : acc.recent_ob <;> simp [hr] at h

theorem GetLatestReport_no_lock (range : RangeOrder) (st : RawHealthStorage) (s : EntityId)
    (hmu : st.mu.locked = false) (hL : st.Locks.get? s = none) :
    GetLatestReport range st s = .returned none { st with mu := ⟨true⟩ } := by
  obtain ⟨T, L, W, ⟨m⟩⟩ := st
  simp only at hmu hL
  subst hmu
  simp [GetLatestReport, Mutex.Lock, hL]

theorem GetLatestReport_no_panorama (range : RangeOrder) (st : RawHealthStorage)
    (s : EntityId) (l : Mutex) (hfree : Free st s) (hL : st.Locks.get? s = some l)
    (hT : st.Tenants.get? s = none) :
    GetLatestReport range st s = .returned none st := by
  obtain ⟨T, L, W, ⟨m⟩⟩ := st
  obtain ⟨hmu, hl⟩ := hfree
  simp only at hmu hl hL hT
  subst hmu
  have hlf := hl l hL
  obtain ⟨b⟩ := l
  simp only at hlf
  subst hlf
  have hset : L.set s { locked := false } = L := GoMap.set_eq_self hL
  simp [GetLatestReport, unlockSubject, Mutex.Lock, Mutex.Unlock, hL, hT, hset]

theorem GetLatestReport_value_Watchlist (range : RangeOrder) (st : RawHealthStorage)
    (s : EntityId) (W : GoMap EntityId Bool) :
    (GetLatestReport range { st with Watchlist := W } s).value? =
      (GetLatestReport range st s).value? := by
  unfold GetLatestReport
  simp only
  cases hmu : st.mu.Lock with
  | none => rfl
  | some mu1 =>
    simp only
    cases hL : st.Locks.get? s with
    | none => rfl
    | some l =>
      simp only
      cases hun : mu1.Unlock with
      | none => rfl
      | some mu2 =>
        simp only
        cases hll : l.Lock with
        | none => rfl
        | some l1 =>
          simp only
          cases hT : st.Tenants.get? s with
          | none => rfl
          | some p =>
            simp only
            cases hscan : scanViews scanInit (range.visit p.Views.entries) with
            | none => rfl
            | some acc =>
              simp only
              cases hr : acc.recent_ob <;> rfl

theorem AddReport_outcome (st : RawHealthStorage) (report : Report) (filter : Bool) :
    AddReport st report filter = .returned (REPORT_IGNORED, none) st ∨
    AddReport st report filter = .returned (REPORT_ACCEPTED, none) (acceptedStore st report) ∨
    ∃ st', AddReport st report filter = .blocked st' := by
  by_cases hmu : st.mu.locked = false
  · by_cases hgate : st.Watchlist.contains report.Subject = false ∧ filter = true
    · obtain ⟨hw, hf⟩ := hgate
      subst hf
      exact Or.inl (AddReport_ignored st report hmu hw)
    · have hadm : filter = false ∨ st.Watchlist.contains report.Subject = true := by
        cases hf : filter
        · exact Or.inl rfl
        · right
          cases hw : st.Watchlist.contains report.Subject
          · exact absurd ⟨hw, hf⟩ hgate
          · rfl
      by_cases hl : ∀ l, st.Locks.get? report.Subject = some l → l.locked = false
      · exact Or.inr (Or.inl (AddReport_accepted st report filter ⟨hmu, hl⟩ hadm))
      · right; right
        push_neg at hl
        obtain ⟨l, hL, hlocked⟩ := hl
        obtain ⟨T, L, W, ⟨m⟩⟩ := st
        obtain ⟨b⟩ := l
        simp only at hmu hL hlocked hadm
        subst hmu
        simp only [Bool.not_eq_false] at hlocked
        subst hlocked
        rcases hadm with hf | hw
        · subst hf
          cases hT : T.get? report.Subject <;> cases hW : W.contains report.Subject <;>
            simp [AddReport, Mutex.Lock, Mutex.Unlock, hL, hT, hW]
        · cases hT : T.get? report.Subject <;>
            simp [AddReport, Mutex.Lock, Mutex.Unlock, hL, hT, hw]
  · right; right
    obtain ⟨T, L, W, ⟨m⟩⟩ := st
    simp only [Bool.not_eq_false] at hmu
    subst hmu
    exact ⟨⟨T, L, W, ⟨true⟩⟩, by simp [AddReport, Mutex.Lock]⟩

theorem Reachable_afterSix : Reachable afterSix :=
  Reachable_runCalls sixReports (NewRawHealthStorage ["S"]) afterSix
    (Reachable.init ["S"]) (by decide)

theorem Reachable_ViewsNonempty (st : RawHealthStorage) (h : Reachable st) :
    MapAll ViewsNonempty st.Tenants :=
  Reachable_MapAll (fun s o v hv => by simp at hv)
    (fun p report hp => ViewsNonempty_record p report hp) st h

theorem AllFree_newSubject (subjects : List EntityId) :
    ∀ st : RawHealthStorage, AllFree st → AllFree (subjects.foldl newSubject st) := by
  induction subjects with
  | nil => intro st h; exact h
  | cons a t ih =>
    intro st h
    simp only [List.foldl_cons]
    apply ih
    refine ⟨h.1, ?_⟩
    intro s l hl
    by_cases hs : s = a
    · subst hs
      simp only [newSubject, GoMap.get?_set_self, Option.some.injEq] at hl
      rw [← hl]
    · simp only [newSubject, GoMap.get?_set_ne _ _ hs] at hl
      exact h.2 s l hl

theorem AllFree_New (subjects : List EntityId) : AllFree (NewRawHealthStorage subjects) :=
  AllFree_newSubject subjects _ ⟨rfl, fun s l hl => by simp at hl⟩

theorem AllFree_acceptedStore (st : RawHealthStorage) (report : Report) (h : AllFree st) :
    AllFree (acceptedStore st report) := by
  refine ⟨rfl, ?_⟩
  intro s l hl
  by_cases hs : s = report.Subject
  · subst hs
    simp only [acceptedStore, GoMap.get?_set_self, Option.some.injEq] at hl
    rw [← hl]
  · simp only [acceptedStore, GoMap.get?_set_ne _ _ hs] at hl
    exact h.2 s l hl

/-- A run of returning calls of the operations that change the maps, started with every
mutex free, ends with every mutex free. -/
theorem AllFree_runCalls (calls : List Call) :
    ∀ st st' : RawHealthStorage, AllFree st → calls.all Call.mutates = true →
      runCalls st calls = some st' → AllFree st' := by
  induction calls with
  | nil =>
    intro st st' h _ hr
    simp only [runCalls, Option.some.injEq] at hr
    subst hr
    exact h
  | cons c cs ih =>
    intro st st' h hall hr
    simp only [List.all_cons, Bool.and_eq_true] at hall
    simp only [runCalls] at hr
    cases hc : c.run st with
    | none => simp [hc] at hr
    | some st₁ =>
      simp only [hc] at hr
      refine ih st₁ st' ?_ hall.2 hr
      cases c with
      | addSubject subject => simp [Call.run, AddSubject_returned?] at hc
      | removeSubject subject clean => simp [Call.run, RemoveSubject_returned?] at hc
      | addReport report filter =>
        simp only [Call.run] at hc
        cases hexec : AddReport st report filter with
        | blocked st₂ => simp [hexec, Exec.returned?] at hc
        | panicked st₂ => simp [hexec, Exec.returned?] at hc
        | returned v st₂ =>
          simp only [hexec, Exec.returned?, Option.some.injEq] at hc
          subst hc
          rcases AddReport_returned st st₂ report filter v hexec with ⟨_, e⟩ | ⟨_, e⟩
          · rw [e]; exact h
          · rw [e]; exact AllFree_acceptedStore st report h
      | getPanorama subject => simp [Call.mutates] at hall
      | getLatestReport range subject => simp [Call.mutates] at hall

/-- On a reachable store, called with the store-wide mutex and the mutex of `s` free,
`GetLatestReport(s)` returns nil exactly in the three not-found cases and a report
otherwise, and its value does not depend on the Watchlist. -/
theorem GetLatestReport_nil_iff_of_free (range : RangeOrder) (st : RawHealthStorage) (s : EntityId)
    (hreach : Reachable st) (hfree : Free st s) :
    ((∃ st', GetLatestReport range st s = .returned none st') ↔
      (st.Locks.get? s = none ∨ st.Tenants.get? s = none ∨
        ∃ p, st.Tenants.get? s = some p ∧ p.Views.entries = [])) ∧
    ((∃ st', GetLatestReport range st s = .returned none st') ∨
      ∃ r st', GetLatestReport range st s = .returned (some r) st') ∧
    (∀ W : GoMap EntityId Bool,
      (GetLatestReport range { st with Watchlist := W } s).value? =
        (GetLatestReport range st s).value?) := by
  refine ⟨?_, ?_, fun W => GetLatestReport_value_Watchlist range st s W⟩
  all_goals
    cases hL : st.Locks.get? s with
    | none =>
      have h := GetLatestReport_no_lock range st s hfree.1 hL
      first
        | exact ⟨fun _ => Or.inl rfl, fun _ => ⟨_, h⟩⟩
        | exact Or.inl ⟨_, h⟩
    | some l =>
      cases hT : st.Tenants.get? s with
      | none =>
        have h := GetLatestReport_no_panorama range st s l hfree hL hT
        first
          | exact ⟨fun _ => Or.inr (Or.inl rfl), fun _ => ⟨_, h⟩⟩
          | exact Or.inl ⟨_, h⟩
      | some p =>
        have h := GetLatestReport_eq range st s l p hfree hL hT
        have hperm := range.perm p.Views.entries
        have hne := Reachable_ViewsNonempty st hreach s p hT
        obtain ⟨acc, hacc⟩ := scanViews_isSome (range.visit p.Views.entries)
          (fun o v hm => hne o v
            ((GoMap.get?_eq_some_iff_mem _ o v).mpr (hperm.mem_iff.mp hm))) scanInit
        by_cases hent : p.Views.entries = []
        · have hvis : range.visit p.Views.entries = [] := by
            have hp2 := hperm
            rw [hent] at hp2
            rw [hent]
            exact List.Perm.eq_nil hp2
          rw [hvis] at hacc
          simp only [scanViews, Option.some.injEq] at hacc
          have hret : GetLatestReport range st s = .returned none st := by
            rw [h, hvis]
            rfl
          first
            | exact ⟨fun _ => Or.inr (Or.inr ⟨p, rfl, hent⟩), fun _ => ⟨_, hret⟩⟩
            | exact Or.inl ⟨_, hret⟩
        · have hvis : range.visit p.Views.entries ≠ [] := by
            intro e
            rw [e] at hperm
            exact hent (List.Perm.eq_nil hperm.symm)
          obtain ⟨⟨o, v, ob, _, _, e⟩, _⟩ :=
            scanViews_first (range.visit p.Views.entries) scanInit acc rfl hvis hacc
          have hret : GetLatestReport range st s =
              .returned (some { Observer := o, Subject := s, Observation := ob }) st := by
            rw [h, hacc]
            subst e
            rfl
          first
            | refine ⟨fun hnil => ?_, fun hc => ?_⟩
              · obtain ⟨st', hst'⟩ := hnil
                rw [hret] at hst'
                simp at hst'
              · rcases hc with hc | hc | ⟨q, hq, hq'⟩
                · cases hc
                · cases hc
                · cases hq
                  exact absurd hq' hent
            | exact Or.inr ⟨_, _, hret⟩

/-- After returned calls of `AddSubject`, `RemoveSubject` and `AddReport` from
`NewRawHealthStorage` (only `AddReport` calls return), every mutex is free and
`GetLatestReport(s)` returns nil exactly in the three not-found cases, a report
otherwise. -/
theorem GetLatestReport_nil_iff_after_reports (range : RangeOrder) (subjects : List EntityId)
    (calls : List Call) (st : RawHealthStorage) (s : EntityId)
    (hcalls : calls.all Call.mutates = true)
    (hrun : runCalls (NewRawHealthStorage subjects) calls = some st) :
    ((∃ st', GetLatestReport range st s = .returned none st') ↔
      (st.Locks.get? s = none ∨ st.Tenants.get? s = none ∨
        ∃ p, st.Tenants.get? s = some p ∧ p.Views.entries = [])) ∧
    ((∃ st', GetLatestReport range st s = .returned none st') ∨
      ∃ r st', GetLatestReport range st s = .returned (some r) st') ∧
    (∀ W : GoMap EntityId Bool,
      (GetLatestReport range { st with Watchlist := W } s).value? =
        (GetLatestReport range st s).value?) := by
  have hfree := AllFree_runCalls calls _ st (AllFree_New subjects) hcalls hrun
  have hreach := Reachable_runCalls calls _ st (Reachable.init subjects) hrun
  exact GetLatestReport_nil_iff_of_free range st s hreach ⟨hfree.1, fun l hl => hfree.2 s l hl⟩

/-! ## The two critical sections of `AddReport` and their interleavings -/

theorem admission_ignored (st : RawHealthStorage) (report : Report)
    (hmu : st.mu.locked = false) (hw : st.Watchlist.contains report.Subject = false) :
    AddReport.admission st report true = .returned false st := by
  obtain ⟨T, L, W, ⟨m⟩⟩ := st
  simp only at hmu hw
  subst hmu
  simp [AddReport.admission, Mutex.Lock, Mutex.Unlock, hw]

theorem admission_admitted (st : RawHealthStorage) (report : Report) (filter : Bool)
    (hmu : st.mu.locked = false)
    (hadm : filter = false ∨ st.Watchlist.contains report.Subject = true) :
    AddReport.admission st report filter = .returned true (admittedStore st report) := by
  obtain ⟨T, L, W, ⟨m⟩⟩ := st
  simp only at hmu hadm
  subst hmu
  have hf : W.contains report.Subject = false → filter = false := by
    intro h
    rcases hadm with h' | h'
    · exact h'
    · rw [h] at h'; cases h'
  cases hL : L.get? report.Subject <;> cases hT : T.get? report.Subject <;>
    cases hW : W.contains report.Subject
  all_goals
    first
      | simp [AddReport.admission, admittedStore, Mutex.Lock, Mutex.Unlock, hL, hT, hW, hf hW]
      | simp [AddReport.admission, admittedStore, Mutex.Lock, Mutex.Unlock, hL, hT, hW]

theorem recording_accepted (st : RawHealthStorage) (report : Report) (l : Mutex)
    (p : Panorama) (hL : st.Locks.get? report.Subject = some l) (hl : l.locked = false)
    (hT : st.Tenants.get? report.Subject = some p) :
    AddReport.recording st report = .returned (REPORT_ACCEPTED, none)
      { st with Tenants := st.Tenants.set report.Subject (recordObservation p report) } := by
  obtain ⟨T, L, W, m⟩ := st
  obtain ⟨b⟩ := l
  simp only at hL hl hT
  subst hl
  have hset : L.set report.Subject { locked := false } = L := GoMap.set_eq_self hL
  simp [AddReport.recording, Mutex.Lock, Mutex.Unlock, hL, hT, hset]

/-- The two sections run back to back are `AddReport`. -/
theorem AddReport_eq_sections (st : RawHealthStorage) (report : Report) (filter : Bool) :
    AddReport st report filter =
      match AddReport.admission st report filter with
      | .returned true st' => AddReport.recording st' report
      | .returned false st' => .returned (REPORT_IGNORED, none) st'
      | .blocked st' => .blocked st'
      | .panicked st' => .panicked st' := by
  obtain ⟨T, L, W, ⟨m⟩⟩ := st
  cases m
  · cases hW : W.contains report.Subject <;> cases filter <;>
      cases hL : L.get? report.Subject <;> cases hT : T.get? report.Subject <;>
      simp [AddReport, AddReport.admission, AddReport.recording, Mutex.Lock, Mutex.Unlock,
        hW, hL, hT]
  · simp [AddReport, AddReport.admission, Mutex.Lock]

theorem Free_admittedStore (st : RawHealthStorage) (report : Report)
    (h : Free st report.Subject) : Free (admittedStore st report) report.Subject := by
  refine ⟨rfl, ?_⟩
  intro l hl
  simp only [admittedStore] at hl
  cases hL : st.Locks.get? report.Subject with
  | some l0 =>
    simp only [hL] at hl
    exact h.2 l (hL.trans hl)
  | none =>
    simp only [hL, GoMap.get?_set_self] at hl
    cases hl
    rfl

theorem admittedStore_Watchlist (st : RawHealthStorage) (report : Report) (s : EntityId)
    (h : st.Watchlist.contains s = true ∨ s = report.Subject) :
    (admittedStore st report).Watchlist.contains s = true := by
  simp only [admittedStore]
  by_cases hw : st.Watchlist.contains report.Subject = true
  · rw [if_pos hw]
    rcases h with h | h
    · exact h
    · rw [h]; exact hw
  · rw [if_neg hw]
    by_cases hs : s = report.Subject
    · rw [hs]; simp
    · rcases h with h | h
      · simp only [GoMap.contains, GoMap.get?_set_ne _ _ hs]
        exact h
      · exact absurd h hs

theorem admittedStore_Locks (st : RawHealthStorage) (report : Report) :
    ∃ l, (admittedStore st report).Locks.get? report.Subject = some l := by
  simp only [admittedStore]
  cases hL : st.Locks.get? report.Subject with
  | some l0 => exact ⟨l0, hL⟩
  | none => exact ⟨_, GoMap.get?_set_self _ _ _⟩

theorem admittedStore_Tenants (st : RawHealthStorage) (report : Report) :
    ∃ p, (admittedStore st report).Tenants.get? report.Subject = some p := by
  simp only [admittedStore]
  cases hT : st.Tenants.get? report.Subject with
  | some p0 => exact ⟨p0, hT⟩
  | none => exact ⟨_, GoMap.get?_set_self _ _ _⟩

theorem obsAt_admittedStore (st : RawHealthStorage) (report : Report) (s o : EntityId) :
    obsAt (admittedStore st report) s o = obsAt st s o := by
  simp only [obsAt, admittedStore]
  cases hT : st.Tenants.get? report.Subject with
  | some p0 => rfl
  | none =>
    simp only
    by_cases hs : s = report.Subject
    · subst hs
      rw [GoMap.get?_set_self, hT]
      simp [Panorama.obsOf]
    · rw [GoMap.get?_set_ne _ _ hs]

theorem obsAt_recorded (st : RawHealthStorage) (report : Report) (p : Panorama)
    (hT : st.Tenants.get? report.Subject = some p) :
    obsAt { st with Tenants := st.Tenants.set report.Subject (recordObservation p report) }
        report.Subject report.Observer =
      some (pushTrim ((obsAt st report.Subject report.Observer).getD []) report.Observation) := by
  simp [obsAt, hT, recordObservation_obsOf_self]

theorem applyObs_cons (cur : Option (List Observation)) (a : Observation)
    (l : List Observation) :
    applyObs cur (a :: l) = applyObs (some (pushTrim (cur.getD []) a)) l := by
  simp [applyObs]

theorem pushTrim_length (obs : List Observation) (ob : Observation)
    (h : obs.length ≤ MaxReportPerView) :
    (pushTrim obs ob).length = min (obs.length + 1) MaxReportPerView := by
  unfold pushTrim
  simp only [MaxReportPerView] at h ⊢
  split
  · rename_i hn
    simp only [List.length_tail, List.length_append, List.length_singleton] at hn ⊢
    omega
  · rename_i hn
    simp only [List.length_append, List.length_singleton] at hn ⊢
    omega

theorem applyObs_length (l : List Observation) :
    ∀ cur : Option (List Observation), (cur.getD []).length ≤ MaxReportPerView →
      ((applyObs cur l).getD []).length =
        min ((cur.getD []).length + l.length) MaxReportPerView := by
  induction l with
  | nil =>
    intro cur h
    simp only [applyObs, List.foldl_nil, List.length_nil, Nat.add_zero]
    omega
  | cons a t ih =>
    intro cur h
    rw [applyObs_cons, ih _ (by
      simp only [Option.getD_some]
      exact pushTrim_length_le _ _ h)]
    simp only [Option.getD_some, pushTrim_length _ _ h, List.length_cons]
    simp only [MaxReportPerView] at h ⊢
    omega

theorem filterMap_range_getElem? {α β : Type} (f : α → β) (l : List α) :
    (List.range l.length).filterMap (fun i => l[i]?.map f) = l.map f := by
  induction l using List.reverseRecOn with
  | nil => rfl
  | append_singleton t a ih =>
    rw [List.length_append, List.length_singleton, List.range_succ, List.filterMap_append,
      List.map_append]
    congr 1
    · rw [← ih]
      apply List.filterMap_congr
      intro i hi
      rw [List.getElem?_append_left (List.mem_range.mp hi)]
    · simp

theorem SchedInv.index_lt {s : EntityId} {calls : List (Report × Bool)} {sys : Concurrent}
    {i : Nat} {rest : List Nat} (inv : SchedInv s calls sys (i :: rest)) :
    i < calls.length ∧ rest.count i + 1 = (sys.phase i).stepsLeft := by
  have h := inv.counts i
  rw [List.count_cons_self] at h
  by_cases hi : i < calls.length
  · rw [if_pos hi] at h
    exact ⟨hi, h⟩
  · rw [if_neg hi] at h
    omega

theorem SchedInv.counts_tail {s : EntityId} {calls : List (Report × Bool)}
    {sys : Concurrent} {i : Nat} {rest : List Nat} (inv : SchedInv s calls sys (i :: rest))
    (st' : RawHealthStorage) (ph : Phase) (hph : ph.stepsLeft + 1 = (sys.phase i).stepsLeft) :
    ∀ j, rest.count j =
      if j < calls.length then ((sys.move st' i ph).phase j).stepsLeft else 0 := by
  intro j
  have h := inv.counts j
  by_cases hj : j = i
  · subst hj
    rw [List.count_cons_self] at h
    simp only [Concurrent.move, if_true]
    by_cases hlt : j < calls.length
    · rw [if_pos hlt] at h ⊢
      omega
    · rw [if_neg hlt] at h
      omega
  · rw [List.count_cons_of_ne hj] at h
    simp only [Concurrent.move, if_neg hj]
    exact h

/-- Every schedule that holds the steps the goroutines still have to take runs to its
end; every goroutine then has returned `REPORT_ACCEPTED`, the view of `o` on `s` is the
earlier view with the recorded observations pushed in recording order, and the goroutines
that recorded are, each once, those that had not yet returned. -/
theorem run_schedule (o s : EntityId) (calls : List (Report × Bool))
    (hcalls : ∀ c ∈ calls, c.1.Observer = o ∧ c.1.Subject = s) (rest : List Nat) :
    ∀ sys : Concurrent, SchedInv s calls sys rest →
      ∃ sys', Concurrent.run calls sys rest = some sys' ∧
        (∀ i, i < calls.length → sys'.phase i = Phase.finished (REPORT_ACCEPTED, none)) ∧
        obsAt sys'.store s o =
          applyObs (obsAt sys.store s o) (Concurrent.recorded calls sys rest) ∧
        (Concurrent.recorders calls sys rest).Nodup ∧
        ∀ a, a ∈ Concurrent.recorders calls sys rest ↔
          (a < calls.length ∧ ∀ v, sys.phase a ≠ Phase.finished v) := by
  induction rest with
  | nil =>
    intro sys inv
    have hfin : ∀ i, i < calls.length → sys.phase i = Phase.finished (REPORT_ACCEPTED, none) := by
      intro i hi
      have h := inv.counts i
      rw [if_pos hi] at h
      simp only [List.count_nil] at h
      cases hp : sys.phase i with
      | waiting => rw [hp] at h; simp [Phase.stepsLeft] at h
      | admitted => rw [hp] at h; simp [Phase.stepsLeft] at h
      | finished v => rw [inv.done i v hi hp]
    refine ⟨sys, rfl, hfin, by simp [Concurrent.recorded, Concurrent.recorders, applyObs],
      by simp [Concurrent.recorders], ?_⟩
    intro a
    simp only [Concurrent.recorders, List.not_mem_nil, false_iff, not_and, not_forall,
      not_not]
    intro ha
    exact ⟨_, hfin a ha⟩
  | cons i rest ih =>
    intro sys inv
    obtain ⟨hi, hleft⟩ := inv.index_lt
    have hget : calls[i]? = some calls[i] := List.getElem?_eq_getElem hi
    have hmem : calls[i] ∈ calls := List.getElem_mem hi
    obtain ⟨hobs, hsub⟩ := hcalls _ hmem
    have hpass := inv.passes _ hmem
    rcases hci : calls[i] with ⟨r, f⟩
    rw [hci] at hget hobs hsub hpass
    simp only at hobs hsub hpass
    subst hsub
    subst hobs
    cases hph : sys.phase i with
    | finished v =>
      rw [hph] at hleft
      simp [Phase.stepsLeft] at hleft
    | waiting =>
      have hadm : AddReport.admission sys.store r f = .returned true (admittedStore sys.store r) :=
        admission_admitted sys.store r f inv.free.1 hpass
      have hstep : sys.step calls i = some (sys.move (admittedStore sys.store r) i Phase.admitted) := by
        simp [Concurrent.step, hget, hph, hadm]
      have inv1 : SchedInv r.Subject calls
          (sys.move (admittedStore sys.store r) i Phase.admitted) rest :=
        { free := Free_admittedStore _ _ inv.free
          passes := fun c hc => by
            rcases inv.passes c hc with h | h
            · exact Or.inl h
            · exact Or.inr (admittedStore_Watchlist _ _ _ (Or.inl h))
          counts := inv.counts_tail _ _ (by rw [hph]; rfl)
          held := fun _ =>
            ⟨admittedStore_Locks sys.store r, admittedStore_Tenants sys.store r⟩
          done := fun j v hj hv => by
            by_cases hji : j = i
            · subst hji
              simp [Concurrent.move] at hv
            · simp only [Concurrent.move, if_neg hji] at hv
              exact inv.done j v hj hv }
      obtain ⟨sys', hrun, hfin, hview, hnodup, hmemb⟩ := ih _ inv1
      have hrec : Concurrent.recorders calls sys (i :: rest) =
          Concurrent.recorders calls (sys.move (admittedStore sys.store r) i Phase.admitted)
            rest := by
        simp [Concurrent.recorders, hstep, hph]
      refine ⟨sys', by simp [Concurrent.run, hstep, hrun], hfin, ?_, by rw [hrec]; exact hnodup,
        ?_⟩
      · rw [hview]
        simp only [Concurrent.recorded, hrec]
        simp only [Concurrent.move, obsAt_admittedStore]
      · intro a
        rw [hrec, hmemb a]
        by_cases hai : a = i
        · subst hai
          simp [Concurrent.move, hph]
        · simp [Concurrent.move, hai]
    | admitted =>
      obtain ⟨⟨l, hL⟩, ⟨p, hT⟩⟩ := inv.held ⟨i, hi, hph⟩
      have hlfree := inv.free.2 l hL
      have hrecd := recording_accepted sys.store r l p hL hlfree hT
      have hstep : sys.step calls i = some (sys.move
          { sys.store with
            Tenants := sys.store.Tenants.set r.Subject (recordObservation p r) }
          i (Phase.finished (REPORT_ACCEPTED, none))) := by
        simp [Concurrent.step, hget, hph, hrecd]
      have inv1 : SchedInv r.Subject calls (sys.move
          { sys.store with
            Tenants := sys.store.Tenants.set r.Subject (recordObservation p r) }
          i (Phase.finished (REPORT_ACCEPTED, none))) rest :=
        { free := ⟨inv.free.1, inv.free.2⟩
          passes := inv.passes
          counts := inv.counts_tail _ _ (by rw [hph]; rfl)
          held := fun _ =>
            ⟨⟨l, hL⟩, ⟨recordObservation p r, GoMap.get?_set_self _ _ _⟩⟩
          done := fun j v hj hv => by
            by_cases hji : j = i
            · subst hji
              simp only [Concurrent.move, if_true, Phase.finished.injEq] at hv
              exact hv.symm
            · simp only [Concurrent.move, if_neg hji] at hv
              exact inv.done j v hj hv }
      obtain ⟨sys', hrun, hfin, hview, hnodup, hmemb⟩ := ih _ inv1
      have hrec : Concurrent.recorders calls sys (i :: rest) =
          i :: Concurrent.recorders calls (sys.move
            { sys.store with
              Tenants := sys.store.Tenants.set r.Subject (recordObservation p r) }
            i (Phase.finished (REPORT_ACCEPTED, none))) rest := by
        simp [Concurrent.recorders, hstep, hph]
      have hnot : i ∉ Concurrent.recorders calls (sys.move
            { sys.store with
              Tenants := sys.store.Tenants.set r.Subject (recordObservation p r) }
            i (Phase.finished (REPORT_ACCEPTED, none))) rest := by
        intro hin
        have := ((hmemb i).mp hin).2 (REPORT_ACCEPTED, none)
        simp [Concurrent.move] at this
      refine ⟨sys', by simp [Concurrent.run, hstep, hrun], hfin, ?_,
        by rw [hrec]; exact List.nodup_cons.mpr ⟨hnot, hnodup⟩, ?_⟩
      · rw [hview]
        simp only [Concurrent.recorded, hrec, List.filterMap_cons, hget, Option.map_some']
        rw [applyObs_cons]
        congr 1
        simp only [Concurrent.move]
        exact obsAt_recorded sys.store r p hT
      · intro a
        rw [hrec, List.mem_cons, hmemb a]
        by_cases hai : a = i
        · subst hai
          simp [hi, hph]
        · simp [Concurrent.move, hai]

/-! ## Claims -/

/-- C1 (retention bound): take any store in which observer `o` has no view of subject
`s`, and any run of calls from it in which every call returns (reports of other observers
or subjects, ignored reports and queries may come in between; `AddSubject` and
`RemoveSubject` never return, so no removal of `s` occurs in such a run).  If `N` reports
from `o` about `s` were accepted during the run, the view of `o` on `s` then holds exactly
`min N MaxReportPerView` observations, namely the last `min N 5` submitted ones in
submission order, oldest first; the view exists as soon as `N > 0`. -/
theorem retention_bound (o s : EntityId) (st st' : RawHealthStorage) (calls : List Call)
    (hnew : obsAt st s o = none) (hrun : runCalls st calls = some st') :
    (obsAt st' s o).getD [] =
      (acceptedObs o s st calls).drop ((acceptedObs o s st calls).length - MaxReportPerView) ∧
    ((obsAt st' s o).getD []).length = min (acceptedObs o s st calls).length MaxReportPerView ∧
    ((obsAt st' s o).isSome = true ↔ acceptedObs o s st calls ≠ []) := by
  have h := obsAt_runCalls o s calls st st' hrun
  rw [hnew, applyObs_none] at h
  by_cases he : acceptedObs o s st calls = []
  · rw [if_pos he] at h
    simp [h, he]
  · rw [if_neg he] at h
    refine ⟨by simp [h], ?_, by simp [h, he]⟩
    simp only [h, Option.getD_some, List.length_drop]
    omega

theorem retention_bound_witness :
    obsAt (NewRawHealthStorage ["S"]) "S" "O" = none ∧
    runCalls (NewRawHealthStorage ["S"]) sixReports = some afterSix ∧
    acceptedObs "O" "S" (NewRawHealthStorage ["S"]) sixReports =
      [⟨1, "m"⟩, ⟨2, "m"⟩, ⟨3, "m"⟩, ⟨4, "m"⟩, ⟨5, "m"⟩, ⟨6, "m"⟩] ∧
    (obsAt afterSix "S" "O").getD [] = [⟨2, "m"⟩, ⟨3, "m"⟩, ⟨4, "m"⟩, ⟨5, "m"⟩, ⟨6, "m"⟩] ∧
    ((obsAt afterSix "S" "O").getD []).length = 5 := by
  have hacc : acceptedObs "O" "S" (NewRawHealthStorage ["S"]) sixReports =
      [⟨1, "m"⟩, ⟨2, "m"⟩, ⟨3, "m"⟩, ⟨4, "m"⟩, ⟨5, "m"⟩, ⟨6, "m"⟩] := by decide
  have h := retention_bound "O" "S" (NewRawHealthStorage ["S"]) afterSix sixReports
    (by decide) (by decide)
  rw [hacc] at h
  exact ⟨by decide, by decide, hacc, h.1, h.2.1⟩

/-- C2 (filtered admission): called with the store-wide mutex free on a report whose
subject is not a key of the Watchlist, `AddReport(report, true)` returns
`(REPORT_IGNORED, nil)` and the store it returns in is the store it was called on:
same Watchlist, Locks, Tenants (hence same views and observations), and the store-wide
mutex free again. -/
theorem AddReport_filtered_unwatched (st : RawHealthStorage) (report : Report)
    (hmu : st.mu.locked = false) (hw : st.Watchlist.get? report.Subject = none) :
    AddReport st report true = .returned (REPORT_IGNORED, none) st :=
  AddReport_ignored st report hmu (by simp [GoMap.contains, hw])

theorem AddReport_filtered_unwatched_witness :
    (NewRawHealthStorage ["S"]).mu.locked = false ∧
    (NewRawHealthStorage ["S"]).Watchlist.get? "T" = none ∧
    AddReport (NewRawHealthStorage ["S"]) ⟨"O", "T", ⟨1, "cpu"⟩⟩ true =
      .returned (REPORT_IGNORED, none) (NewRawHealthStorage ["S"]) :=
  ⟨by decide, by decide,
    AddReport_filtered_unwatched (NewRawHealthStorage ["S"]) ⟨"O", "T", ⟨1, "cpu"⟩⟩
      (by decide) (by decide)⟩

/-- C3 (unfiltered auto-admission): called with the store-wide mutex and the subject's
mutex free, `AddReport(report, filter)` with `filter = false`, or with any `filter` when
the subject is already watched, returns `(REPORT_ACCEPTED, nil)`; in the store it returns
in, the subject is a key of Watchlist, Locks and Tenants and the view of
`report.Observer` exists with `report.Observation` as its last element. -/
theorem AddReport_accepts (st : RawHealthStorage) (report : Report) (filter : Bool)
    (hfree : Free st report.Subject)
    (hadm : filter = false ∨ st.Watchlist.contains report.Subject = true) :
    ∃ st', AddReport st report filter = .returned (REPORT_ACCEPTED, none) st' ∧
      st'.Watchlist.contains report.Subject = true ∧
      st'.Locks.contains report.Subject = true ∧
      ∃ p v, st'.Tenants.get? report.Subject = some p ∧
        p.Views.get? report.Observer = some v ∧
        v.Observations.getLast? = some report.Observation := by
  refine ⟨acceptedStore st report, AddReport_accepted st report filter hfree hadm, ?_, ?_, ?_⟩
  · simp only [acceptedStore]
    split
    · assumption
    · simp
  · simp [acceptedStore]
  · obtain ⟨v, hv, hobs⟩ := recordObservation_view (panoramaFor st report.Subject) report
    exact ⟨_, v, by simp [acceptedStore], hv, by rw [hobs]; exact getLast?_pushTrim _ _⟩

theorem AddReport_accepts_witness :
    Free (NewRawHealthStorage []) "S" ∧
    ∃ st', AddReport (NewRawHealthStorage []) ⟨"O", "S", ⟨7, "cpu"⟩⟩ false =
        .returned (REPORT_ACCEPTED, none) st' ∧
      st'.Watchlist.contains "S" = true ∧
      st'.Locks.contains "S" = true ∧
      ∃ p v, st'.Tenants.get? "S" = some p ∧
        p.Views.get? "O" = some v ∧
        v.Observations.getLast? = some ⟨7, "cpu"⟩ :=
  ⟨by decide,
    AddReport_accepts (NewRawHealthStorage []) ⟨"O", "S", ⟨7, "cpu"⟩⟩ false (by decide)
      (Or.inl rfl)⟩

/-- C4, as stated, fails: in a store where subject `S` has a free lock and a panorama with
one view, that view holding no observation, `GetLatestReport("S")` does not return a
report; it stops with a nil dereference. -/
theorem GetLatestReport_empty_view_panics :
    emptyViewStore.Locks.contains "S" = true ∧
    (∃ p, emptyViewStore.Tenants.get? "S" = some p ∧ p.Views.entries.length = 1) ∧
    GetLatestReport storedOrder emptyViewStore "S" = .panicked emptyViewStore := by
  refine ⟨by decide, ⟨_, rfl, by decide⟩, by decide⟩

/-- C4 (latest report over view tails), amended: in a store where `s` has a lock, the
mutexes are free, the panorama of `s` has at least one view and every view of `s` holds at
least one observation, `GetLatestReport(s)` returns, in an unchanged store, a report with
subject `s`, whose observer has a view of `s`, whose observation is the tail of that view
and whose timestamp is not before the tail timestamp of any view of `s`.  When the tail of
one view is strictly later than the tail of every other view, the report is that view's,
whatever the iteration order `range`. -/
theorem GetLatestReport_latest_tail (range : RangeOrder) (st : RawHealthStorage)
    (s : EntityId) (l : Mutex) (p : Panorama) (hfree : Free st s)
    (hL : st.Locks.get? s = some l) (hT : st.Tenants.get? s = some p)
    (hviews : p.Views.entries ≠ [])
    (hne : ∀ o v, p.Views.get? o = some v → v.Observations ≠ []) :
    ∃ r, GetLatestReport range st s = .returned (some r) st ∧ r.Subject = s ∧
      (∃ v, p.Views.get? r.Observer = some v ∧
        v.Observations.getLast? = some r.Observation) ∧
      (∀ o v ob, p.Views.get? o = some v → v.Observations.getLast? = some ob →
        ob.Ts ≤ r.Observation.Ts) ∧
      (∀ o v ob, p.Views.get? o = some v → v.Observations.getLast? = some ob →
        (∀ o' v' ob', o' ≠ o → p.Views.get? o' = some v' →
          v'.Observations.getLast? = some ob' → ob'.Ts < ob.Ts) →
        r = { Observer := o, Subject := s, Observation := ob }) := by
  have hperm := range.perm p.Views.entries
  have hmem : ∀ o v, (o, v) ∈ range.visit p.Views.entries ↔ p.Views.get? o = some v := by
    intro o v
    rw [hperm.mem_iff, GoMap.get?_eq_some_iff_mem]
  have hvisit : range.visit p.Views.entries ≠ [] := by
    intro e
    rw [e] at hperm
    exact hviews (List.Perm.eq_nil hperm.symm)
  obtain ⟨acc, hacc⟩ := scanViews_isSome (range.visit p.Views.entries)
    (fun o v hm => hne o v ((hmem o v).mp hm)) scanInit
  obtain ⟨⟨o, v, ob, hm, hlast, e⟩, hbd⟩ :=
    scanViews_first (range.visit p.Views.entries) scanInit acc rfl hvisit hacc
  have hget := (hmem o v).mp hm
  have hbound : ∀ o' v' ob', p.Views.get? o' = some v' →
      v'.Observations.getLast? = some ob' → ob'.Ts ≤ ob.Ts := by
    intro o' v' ob' hg hl'
    obtain ⟨ob2, h2, hle⟩ := hbd o' v' ((hmem o' v').mpr hg)
    rw [hl'] at h2
    cases h2
    rw [e] at hle
    exact hle
  refine ⟨{ Observer := o, Subject := s, Observation := ob }, ?_, rfl, ⟨v, hget, hlast⟩,
    hbound, ?_⟩
  · rw [GetLatestReport_eq range st s l p hfree hL hT, hacc]
    subst e
    rfl
  · intro o₀ v₀ ob₀ hg₀ hl₀ hstrict
    by_cases ho : o = o₀
    · subst ho
      rw [hget] at hg₀
      cases hg₀
      rw [hlast] at hl₀
      cases hl₀
      rfl
    · have h1 := hstrict o v ob ho hget hlast
      have h2 := hbound o₀ v₀ ob₀ hg₀ hl₀
      exact absurd h1 (not_lt.mpr h2)

theorem GetLatestReport_latest_tail_witness :
    (Free twoObserversAB "S" ∧
      ∃ r, GetLatestReport reverseOrder twoObserversAB "S" = .returned (some r) twoObserversAB ∧
        r = ⟨"B", "S", ⟨2, "m"⟩⟩) ∧
    (Free twoObserversBA "S" ∧
      ∃ r, GetLatestReport storedOrder twoObserversBA "S" = .returned (some r) twoObserversBA ∧
        r = ⟨"B", "S", ⟨2, "m"⟩⟩) := by
  constructor
  · refine ⟨by decide, ?_⟩
    obtain ⟨r, hr, _, _, _, huniq⟩ := GetLatestReport_latest_tail reverseOrder twoObserversAB "S"
      ⟨false⟩ ((twoObserversAB.Tenants.get? "S").getD ⟨"", GoMap.empty⟩)
      (by decide) (by decide) (by decide) (by decide)
      (by
        intro o v h
        have hm := (GoMap.get?_eq_some_iff_mem _ o v).mp h
        have : (o, v) ∈ [("A", (⟨"A", "S", [⟨1, "m"⟩]⟩ : View)), ("B", ⟨"B", "S", [⟨2, "m"⟩]⟩)] := hm
        simp only [List.mem_cons, Prod.mk.injEq, List.mem_singleton, List.not_mem_nil, or_false] at this
        rcases this with ⟨_, e⟩ | ⟨_, e⟩ <;> subst e <;> decide)
    refine ⟨r, hr, ?_⟩
    refine huniq "B" ⟨"B", "S", [⟨2, "m"⟩]⟩ ⟨2, "m"⟩ (by decide) (by decide) ?_
    intro o' v' ob' hne hg hl
    have hm := (GoMap.get?_eq_some_iff_mem _ o' v').mp hg
    have : (o', v') ∈ [("A", (⟨"A", "S", [⟨1, "m"⟩]⟩ : View)), ("B", ⟨"B", "S", [⟨2, "m"⟩]⟩)] := hm
    simp only [List.mem_cons, Prod.mk.injEq, List.mem_singleton, List.not_mem_nil, or_false] at this
    rcases this with ⟨e1, e2⟩ | ⟨e1, e2⟩
    · subst e2
      simp only [List.getLast?_singleton, Option.some.injEq] at hl
      subst hl
      decide
    · exact absurd e1 hne
  · refine ⟨by decide, ⟨"B", "S", ⟨2, "m"⟩⟩, by decide, rfl⟩

/-- C5, as stated, fails: after `O` reports on `S` at time 10 and then at time 5 (both
accepted), `GetLatestReport("S")` returns the observation of time 5 while the view of `O`
still holds the observation of time 10. -/
theorem GetLatestReport_not_globally_latest :
    GetLatestReport storedOrder outOfOrderStore "S" =
      .returned (some ⟨"O", "S", ⟨5, "m"⟩⟩) outOfOrderStore ∧
    ∃ p v ob, outOfOrderStore.Tenants.get? "S" = some p ∧ p.Views.get? "O" = some v ∧
      ob ∈ v.Observations ∧ (5 : Time) < ob.Ts := by
  refine ⟨by decide, ⟨"S", GoMap.empty.set "O" ⟨"O", "S", [⟨10, "m"⟩, ⟨5, "m"⟩]⟩⟩,
    ⟨"O", "S", [⟨10, "m"⟩, ⟨5, "m"⟩]⟩, ⟨10, "m"⟩, by decide, by decide, by decide, by decide⟩

/-- C5 (latest observation), amended: whenever `GetLatestReport(s)` returns a non-nil
report, in any store, every view of `s` has a tail observation and the returned
observation's timestamp is not before the tail timestamp of any view of `s`; it is not
before the timestamp of any observation stored in a view of `s` whose observations are in
non-decreasing timestamp order. -/
theorem GetLatestReport_not_before_tails (range : RangeOrder) (st st' : RawHealthStorage)
    (s : EntityId) (r : Report)
    (h : GetLatestReport range st s = .returned (some r) st') :
    ∃ p, st.Tenants.get? s = some p ∧
      (∀ o v, p.Views.get? o = some v →
        ∃ ob, v.Observations.getLast? = some ob ∧ ob.Ts ≤ r.Observation.Ts) ∧
      (∀ o v, p.Views.get? o = some v →
        v.Observations.Pairwise (fun a b => a.Ts ≤ b.Ts) →
        ∀ ob ∈ v.Observations, ob.Ts ≤ r.Observation.Ts) := by
  obtain ⟨p, acc, hT, hscan, hrec, _, _⟩ := GetLatestReport_returned_some range st st' s r h
  have hperm := range.perm p.Views.entries
  have hmem : ∀ o v, p.Views.get? o = some v → (o, v) ∈ range.visit p.Views.entries := by
    intro o v hg
    rw [hperm.mem_iff, ← GoMap.get?_eq_some_iff_mem]
    exact hg
  have hvisit : range.visit p.Views.entries ≠ [] := by
    intro e
    rw [e] at hscan
    simp only [scanViews, Option.some.injEq] at hscan
    rw [← hscan] at hrec
    cases hrec
  obtain ⟨⟨o, v, ob, _, _, e⟩, hbd⟩ :=
    scanViews_first (range.visit p.Views.entries) scanInit acc rfl hvisit hscan
  have hts : acc.max_ts = r.Observation.Ts := by
    rw [e] at hrec ⊢
    simp only [Option.some.injEq] at hrec
    rw [← hrec]
  have htail : ∀ o v, p.Views.get? o = some v →
      ∃ ob, v.Observations.getLast? = some ob ∧ ob.Ts ≤ r.Observation.Ts := by
    intro o' v' hg
    obtain ⟨ob', hl, hle⟩ := hbd o' v' (hmem o' v' hg)
    exact ⟨ob', hl, by rw [← hts]; exact hle⟩
  refine ⟨p, hT, htail, ?_⟩
  intro o' v' hg hsorted x hx
  obtain ⟨ob', hl, hle⟩ := htail o' v' hg
  exact le_trans (le_last_of_pairwise v'.Observations ob' hsorted hl x hx) hle

theorem GetLatestReport_not_before_tails_witness :
    GetLatestReport storedOrder outOfOrderStore "S" =
      .returned (some ⟨"O", "S", ⟨5, "m"⟩⟩) outOfOrderStore ∧
    ∃ p, outOfOrderStore.Tenants.get? "S" = some p ∧
      (∀ o v, p.Views.get? o = some v →
        ∃ ob, v.Observations.getLast? = some ob ∧
          ob.Ts ≤ (⟨"O", "S", ⟨5, "m"⟩⟩ : Report).Observation.Ts) ∧
      (∀ o v, p.Views.get? o = some v →
        v.Observations.Pairwise (fun a b => a.Ts ≤ b.Ts) →
        ∀ ob ∈ v.Observations, ob.Ts ≤ (⟨"O", "S", ⟨5, "m"⟩⟩ : Report).Observation.Ts) :=
  ⟨by decide,
    GetLatestReport_not_before_tails storedOrder outOfOrderStore outOfOrderStore "S"
      ⟨"O", "S", ⟨5, "m"⟩⟩ (by decide)⟩

/-- C6 (conjunctive check of GetPanorama): called with the store-wide mutex free,
`GetPanorama(s)` returns, in an unchanged store, a pair whose two components are either
both non-nil or both nil; they are non-nil exactly when `s` is a key of Watchlist, of
Locks and of Tenants, and then they are `Tenants[s]` and `Locks[s]`. -/
theorem GetPanorama_conjunctive (st : RawHealthStorage) (s : EntityId)
    (hmu : st.mu.locked = false) :
    ∃ res, GetPanorama st s = .returned res st ∧
      (res.1.isSome = true ↔
        (st.Watchlist.contains s = true ∧ st.Locks.contains s = true ∧
          st.Tenants.contains s = true)) ∧
      (res.2.isSome = res.1.isSome) ∧
      (res.1.isSome = true → res = (st.Tenants.get? s, st.Locks.get? s)) ∧
      (res.1.isSome = false → res = (none, none)) := by
  refine ⟨_, GetPanorama_eq st s hmu, ?_⟩
  cases hW : st.Watchlist.contains s <;> cases hL : st.Locks.get? s <;>
    cases hT : st.Tenants.get? s <;> simp [GoMap.contains, hL, hT]

theorem GetPanorama_conjunctive_witness :
    (NewRawHealthStorage ["S"]).mu.locked = false ∧
    ∃ res, GetPanorama (NewRawHealthStorage ["S"]) "S" =
        .returned res (NewRawHealthStorage ["S"]) ∧
      (res.1.isSome = true ↔
        ((NewRawHealthStorage ["S"]).Watchlist.contains "S" = true ∧
          (NewRawHealthStorage ["S"]).Locks.contains "S" = true ∧
          (NewRawHealthStorage ["S"]).Tenants.contains "S" = true)) ∧
      (res.2.isSome = res.1.isSome) ∧
      (res.1.isSome = true →
        res = ((NewRawHealthStorage ["S"]).Tenants.get? "S",
          (NewRawHealthStorage ["S"]).Locks.get? "S")) ∧
      (res.1.isSome = false → res = (none, none)) :=
  ⟨by decide, GetPanorama_conjunctive (NewRawHealthStorage ["S"]) "S" (by decide)⟩

/-- C7 (idempotent watch) does not hold of the code: `AddSubject` never returns, whatever
the store and the subject.  Called on a new store with the store-wide mutex free, it
acquires the mutex, adds `S` to the Watchlist and then waits forever in its second
`self.mu.Lock()`, still holding the mutex. -/
theorem AddSubject_never_returns :
    (∀ (st : RawHealthStorage) (s : EntityId), (AddSubject st s).value? = none) ∧
    AddSubject (NewRawHealthStorage []) "S" =
      .blocked { Tenants := GoMap.empty, Locks := GoMap.empty,
                 Watchlist := GoMap.empty.set "S" true, mu := ⟨true⟩ } := by
  refine ⟨?_, by decide⟩
  intro st s
  obtain ⟨T, L, W, ⟨m⟩⟩ := st
  cases m <;> simp [AddSubject, Mutex.Lock, Exec.value?]

/-- C8, as stated, fails: the store that `AddSubject("S")` leaves when called on a new
store has `S` on the Watchlist and no entry for `S` in Locks. -/
theorem AddSubject_creates_no_lock :
    (AddSubject (NewRawHealthStorage []) "S").state.Watchlist.contains "S" = true ∧
    (AddSubject (NewRawHealthStorage []) "S").state.Locks.contains "S" = false := by
  decide

/-- C8 (locks and AddSubject), amended: `AddSubject` does not touch the Locks map: in
the store the call leaves, Locks is the map it was called with, so `s` has a lock after
the call exactly when it had one before.  The lock of a subject is created by
`NewRawHealthStorage` for each subject it is given, and by `AddReport` whenever it
accepts a report about the subject. -/
theorem AddSubject_Locks_unchanged (st : RawHealthStorage) (s : EntityId) :
    (AddSubject st s).state.Locks = st.Locks ∧
    (∀ subjects : List EntityId, s ∈ subjects →
      (NewRawHealthStorage subjects).Locks.contains s = true) ∧
    (∀ (report : Report) (filter : Bool) (st' : RawHealthStorage),
      AddReport st report filter = .returned (REPORT_ACCEPTED, none) st' →
      st'.Locks.contains report.Subject = true) := by
  refine ⟨?_, fun subjects hs => NewRawHealthStorage_Locks subjects s hs, ?_⟩
  · obtain ⟨T, L, W, ⟨m⟩⟩ := st
    cases m <;> simp [AddSubject, Mutex.Lock, Exec.state]
  · intro report filter st' h
    rcases AddReport_returned st st' report filter _ h with ⟨hv, _⟩ | ⟨_, hst⟩
    · simp [REPORT_ACCEPTED, REPORT_IGNORED] at hv
    · subst hst
      simp [acceptedStore]

theorem AddSubject_Locks_unchanged_witness :
    (AddSubject (NewRawHealthStorage ["T"]) "S").state.Locks = (NewRawHealthStorage ["T"]).Locks ∧
    (NewRawHealthStorage ["S", "T"]).Locks.contains "S" = true ∧
    (AddReport (NewRawHealthStorage ["T"]) ⟨"O", "S", ⟨1, "m"⟩⟩ false).state.Locks.contains "S"
      = true := by
  have h := AddSubject_Locks_unchanged (NewRawHealthStorage ["T"]) "S"
  exact ⟨h.1, h.2.1 ["S", "T"] (by decide), by decide⟩

/-- C9 (non-clean removal keeps history) does not hold of the code:
`RemoveSubject(s, false)` never returns.  From a store with the store-wide mutex free it
removes `s` from the Watchlist, leaves Tenants and Locks as they were, and then waits
forever in its deferred `self.mu.Lock()`, still holding the mutex; the `AddSubject(s)`
and `GetPanorama(s)` that the claim makes afterwards wait forever as well. -/
theorem RemoveSubject_unclean_never_returns :
    (∀ (st : RawHealthStorage) (s : EntityId),
      ∃ st', RemoveSubject st s false = .blocked st' ∧
        st'.Tenants = st.Tenants ∧ st'.Locks = st.Locks ∧
        GetPanorama st' s = .blocked st' ∧ AddSubject st' s = .blocked st') ∧
    RemoveSubject twoObserversAB "S" false =
      .blocked { twoObserversAB with Watchlist := GoMap.empty, mu := ⟨true⟩ } := by
  refine ⟨?_, by decide⟩
  intro st s
  obtain ⟨T, L, W, ⟨m⟩⟩ := st
  cases m
  · exact ⟨⟨T, L, W.delete s, ⟨true⟩⟩, by simp [RemoveSubject, Mutex.Lock], rfl, rfl,
      by simp [GetPanorama, Mutex.Lock], by simp [AddSubject, Mutex.Lock]⟩
  · exact ⟨⟨T, L, W, ⟨true⟩⟩, by simp [RemoveSubject, Mutex.Lock], rfl, rfl,
      by simp [GetPanorama, Mutex.Lock], by simp [AddSubject, Mutex.Lock]⟩

/-- C10 (clean removal) does not hold of the code: `RemoveSubject(s, true)` never
returns.  After the six-report scenario it deletes `S` from Watchlist, Tenants and Locks
and then waits forever in its deferred `self.mu.Lock()`, still holding the store-wide
mutex; `GetPanorama(S)` and `GetLatestReport(S)` made afterwards wait forever for that
mutex instead of returning nil. -/
theorem RemoveSubject_clean_never_returns :
    (∀ (range : RangeOrder) (st : RawHealthStorage) (s : EntityId),
      ∃ st', RemoveSubject st s true = .blocked st' ∧
        GetPanorama st' s = .blocked st' ∧ GetLatestReport range st' s = .blocked st') ∧
    RemoveSubject afterSix "S" true =
      .blocked { Tenants := GoMap.empty, Locks := GoMap.empty, Watchlist := GoMap.empty,
                 mu := ⟨true⟩ } := by
  refine ⟨?_, by decide⟩
  intro range st s
  obtain ⟨T, L, W, ⟨m⟩⟩ := st
  cases m
  · exact ⟨⟨T.delete s, L.delete s, W.delete s, ⟨true⟩⟩, by simp [RemoveSubject, Mutex.Lock],
      by simp [GetPanorama, Mutex.Lock], by simp [GetLatestReport, Mutex.Lock]⟩
  · exact ⟨⟨T, L, W, ⟨true⟩⟩, by simp [RemoveSubject, Mutex.Lock],
      by simp [GetPanorama, Mutex.Lock], by simp [GetLatestReport, Mutex.Lock]⟩

/-- C11 (result of RemoveSubject) does not hold of the code: `RemoveSubject` never
returns, whatever the store, the subject and `clean`, so it returns neither true nor
false.  Called on a new store watching `S` with the store-wide mutex free, it deletes `S`
from the Watchlist and then waits forever in its deferred `self.mu.Lock()`. -/
theorem RemoveSubject_returns_no_result :
    (∀ (st : RawHealthStorage) (s : EntityId) (clean : Bool),
      (RemoveSubject st s clean).value? = none) ∧
    RemoveSubject (NewRawHealthStorage ["S"]) "S" false =
      .blocked { NewRawHealthStorage ["S"] with Watchlist := GoMap.empty, mu := ⟨true⟩ } := by
  refine ⟨?_, by decide⟩
  intro st s clean
  obtain ⟨T, L, W, ⟨m⟩⟩ := st
  cases m <;> cases clean <;> simp [RemoveSubject, Mutex.Lock, Exec.value?]

/-- C12 (view length invariant): in every store reachable from `NewRawHealthStorage`
through calls of the store's operations, every view of every panorama holds at most
`MaxReportPerView` observations; and when `AddReport` records an observation in a
panorama of such a store, its single removal of the front element leaves the view with
what the rule "remove from the head until the length is `MaxReportPerView`" gives, of
length at most `MaxReportPerView`. -/
theorem view_length_invariant (st : RawHealthStorage) (h : Reachable st) :
    (∀ s p o v, st.Tenants.get? s = some p → p.Views.get? o = some v →
      v.Observations.length ≤ MaxReportPerView) ∧
    (∀ p report, st.Tenants.get? report.Subject = some p →
      ∃ v, (recordObservation p report).Views.get? report.Observer = some v ∧
        v.Observations =
          evictToBound ((p.obsOf report.Observer).getD [] ++ [report.Observation]) ∧
        v.Observations.length ≤ MaxReportPerView) := by
  have hinv : MapAll ViewsBounded st.Tenants :=
    Reachable_MapAll (fun s o v hv => by simp at hv)
      (fun p report hp => ViewsBounded_record p report hp) st h
  refine ⟨fun s p o v hp hv => hinv s p hp o v hv, ?_⟩
  intro p report hp
  obtain ⟨v, hv, hobs, _⟩ := recordObservation_get?_self p report
  have hlen : ((p.obsOf report.Observer).getD []).length ≤ MaxReportPerView := by
    cases hw : p.Views.get? report.Observer with
    | none => simp [Panorama.obsOf, hw]
    | some w => simpa [Panorama.obsOf, hw] using hinv _ p hp _ w hw
  refine ⟨v, hv, ?_, ?_⟩
  · rw [hobs]; exact pushTrim_eq_evictToBound _ _ hlen
  · rw [hobs]; exact pushTrim_length_le _ _ hlen

theorem view_length_invariant_witness :
    Reachable afterSix ∧
    (∀ s p o v, afterSix.Tenants.get? s = some p → p.Views.get? o = some v →
      v.Observations.length ≤ MaxReportPerView) ∧
    (∀ p report, afterSix.Tenants.get? report.Subject = some p →
      ∃ v, (recordObservation p report).Views.get? report.Observer = some v ∧
        v.Observations =
          evictToBound ((p.obsOf report.Observer).getD [] ++ [report.Observation]) ∧
        v.Observations.length ≤ MaxReportPerView) :=
  ⟨Reachable_afterSix, view_length_invariant afterSix Reachable_afterSix⟩

/-- C13 (key consistency invariant): in every store reachable from `NewRawHealthStorage`
through calls of the store's operations, the panorama stored under subject `s` has
`Subject = s`, and the view stored in it under observer `o` has `Observer = o` and
`Subject = s`. -/
theorem keys_consistent (st : RawHealthStorage) (h : Reachable st) :
    ∀ s p, st.Tenants.get? s = some p →
      p.Subject = s ∧ ∀ o v, p.Views.get? o = some v → v.Observer = o ∧ v.Subject = s :=
  Reachable_MapAll (P := KeysConsistent) (fun s => ⟨rfl, fun o v hv => by simp at hv⟩)
    (fun p report hp => KeysConsistent_record p report hp) st h

theorem keys_consistent_witness :
    Reachable afterSix ∧
    ∀ s p, afterSix.Tenants.get? s = some p →
      p.Subject = s ∧ ∀ o v, p.Views.get? o = some v → v.Observer = o ∧ v.Subject = s :=
  ⟨Reachable_afterSix, keys_consistent afterSix Reachable_afterSix⟩

/-- C14 (not-found cases of GetLatestReport) does not hold of the code: the store that
`AddSubject("S")` leaves when called on a new store is reachable from
`NewRawHealthStorage` and has no entry for `S` in Locks, yet `GetLatestReport("S")` does
not return nil there: it waits forever in `self.mu.Lock()` for the store-wide mutex that
`AddSubject` still holds.  So the equivalence of the claim fails over the reachable
stores. -/
theorem GetLatestReport_blocks_after_AddSubject :
    Reachable (Call.leaves (NewRawHealthStorage []) (.addSubject "S")) ∧
    (Call.leaves (NewRawHealthStorage []) (.addSubject "S")).Locks.get? "S" = none ∧
    (∀ range : RangeOrder,
      GetLatestReport range (Call.leaves (NewRawHealthStorage []) (.addSubject "S")) "S" =
        .blocked (Call.leaves (NewRawHealthStorage []) (.addSubject "S"))) ∧
    ¬ (∀ (range : RangeOrder) (st : RawHealthStorage) (s : EntityId), Reachable st →
        ((∃ st', GetLatestReport range st s = .returned none st') ↔
          (st.Locks.get? s = none ∨ st.Tenants.get? s = none ∨
            ∃ p, st.Tenants.get? s = some p ∧ p.Views.entries = []))) := by
  have hreach : Reachable (Call.leaves (NewRawHealthStorage []) (.addSubject "S")) :=
    Reachable.call _ _ (Reachable.init [])
  have hblock : ∀ range : RangeOrder,
      GetLatestReport range (Call.leaves (NewRawHealthStorage []) (.addSubject "S")) "S" =
        .blocked (Call.leaves (NewRawHealthStorage []) (.addSubject "S")) := by
    intro range
    have hmu : (Call.leaves (NewRawHealthStorage []) (.addSubject "S")).mu.Lock = none := by
      decide
    unfold GetLatestReport
    rw [hmu]
  refine ⟨hreach, by decide, hblock, ?_⟩
  intro hall
  obtain ⟨st', hst'⟩ := (hall storedOrder _ "S" hreach).mpr (Or.inl (by decide))
  rw [hblock storedOrder] at hst'
  cases hst'

/-- C15 (admission operations release the store-wide lock) does not hold of the code:
whatever the store, `AddSubject` and `RemoveSubject` do not return, and the store they
leave has the store-wide mutex held.  Started with the mutex free, each acquires it,
changes the maps and then calls `self.mu.Lock()` again while holding it (the second call
of `AddSubject`, the deferred call of `RemoveSubject`), where the release is meant. -/
theorem admission_operations_keep_mutex :
    (∀ (st : RawHealthStorage) (s : EntityId),
      ∃ st', AddSubject st s = .blocked st' ∧ st'.mu.locked = true) ∧
    (∀ (st : RawHealthStorage) (s : EntityId) (clean : Bool),
      ∃ st', RemoveSubject st s clean = .blocked st' ∧ st'.mu.locked = true) ∧
    (NewRawHealthStorage ["T"]).mu.locked = false ∧
    AddSubject (NewRawHealthStorage ["T"]) "S" =
      .blocked { NewRawHealthStorage ["T"] with
        Watchlist := (NewRawHealthStorage ["T"]).Watchlist.set "S" true, mu := ⟨true⟩ } ∧
    RemoveSubject (NewRawHealthStorage ["T"]) "T" true =
      .blocked { Tenants := GoMap.empty, Locks := GoMap.empty, Watchlist := GoMap.empty,
                 mu := ⟨true⟩ } := by
  refine ⟨?_, ?_, by decide, by decide, by decide⟩
  · intro st s
    obtain ⟨T, L, W, ⟨m⟩⟩ := st
    cases m
    · exact ⟨⟨T, L, W.set s true, ⟨true⟩⟩, by simp [AddSubject, Mutex.Lock], rfl⟩
    · exact ⟨⟨T, L, W, ⟨true⟩⟩, by simp [AddSubject, Mutex.Lock], rfl⟩
  · intro st s clean
    obtain ⟨T, L, W, ⟨m⟩⟩ := st
    cases m <;> cases clean
    · exact ⟨⟨T, L, W.delete s, ⟨true⟩⟩, by simp [RemoveSubject, Mutex.Lock], rfl⟩
    · exact ⟨⟨T.delete s, L.delete s, W.delete s, ⟨true⟩⟩,
        by simp [RemoveSubject, Mutex.Lock], rfl⟩
    · exact ⟨⟨T, L, W, ⟨true⟩⟩, by simp [RemoveSubject, Mutex.Lock], rfl⟩
    · exact ⟨⟨T, L, W, ⟨true⟩⟩, by simp [RemoveSubject, Mutex.Lock], rfl⟩

/-- C16 (AddReport never fails): called with the store-wide mutex and the subject's mutex
free, `AddReport` returns, with outcome `REPORT_IGNORED` or `REPORT_ACCEPTED` and a nil
error.  Whatever the store, a value it returns has one of these two outcomes, never
`REPORT_FAILED`, and a nil error, and the call never panics. -/
theorem AddReport_never_fails (st : RawHealthStorage) (report : Report) (filter : Bool) :
    (Free st report.Subject →
      ∃ v st', AddReport st report filter = .returned v st' ∧
        (v.1 = REPORT_IGNORED ∨ v.1 = REPORT_ACCEPTED) ∧ v.2 = none) ∧
    (∀ v st', AddReport st report filter = .returned v st' →
      (v.1 = REPORT_IGNORED ∨ v.1 = REPORT_ACCEPTED) ∧ v.1 ≠ REPORT_FAILED ∧ v.2 = none) ∧
    (∀ st', AddReport st report filter ≠ .panicked st') := by
  refine ⟨?_, ?_, ?_⟩
  · intro hfree
    by_cases hgate : st.Watchlist.contains report.Subject = false ∧ filter = true
    · obtain ⟨hw, hf⟩ := hgate
      subst hf
      exact ⟨_, _, AddReport_ignored st report hfree.1 hw, Or.inl rfl, rfl⟩
    · have hadm : filter = false ∨ st.Watchlist.contains report.Subject = true := by
        cases hf : filter
        · exact Or.inl rfl
        · right
          cases hw : st.Watchlist.contains report.Subject
          · exact absurd ⟨hw, hf⟩ hgate
          · rfl
      exact ⟨_, _, AddReport_accepted st report filter hfree hadm, Or.inr rfl, rfl⟩
  · intro v st' h
    rcases AddReport_returned st st' report filter v h with ⟨hv, _⟩ | ⟨hv, _⟩
    · subst hv
      exact ⟨Or.inl rfl, by decide, rfl⟩
    · subst hv
      exact ⟨Or.inr rfl, by decide, rfl⟩
  · intro st' h
    rcases AddReport_outcome st report filter with e | e | ⟨st'', e⟩ <;>
      rw [e] at h <;> cases h

theorem AddReport_never_fails_witness :
    Free (NewRawHealthStorage ["S"]) "T" ∧
    ∃ v st', AddReport (NewRawHealthStorage ["S"]) ⟨"O", "T", ⟨1, "m"⟩⟩ true =
        .returned v st' ∧
      (v.1 = REPORT_IGNORED ∨ v.1 = REPORT_ACCEPTED) ∧ v.2 = none :=
  ⟨by decide,
    (AddReport_never_fails (NewRawHealthStorage ["S"]) ⟨"O", "T", ⟨1, "m"⟩⟩ true).1
      (by decide)⟩

/-- C17 (no lost updates under concurrency): let `M` goroutines call `AddReport`, each
with a report from observer `o` about subject `s` that passes the Watchlist test, on a
store whose store-wide mutex and mutex of `s` are free.  A goroutine takes two steps, the
critical section under the store-wide mutex (lines 75-101) and the one under the mutex
of `s` (lines 102-120).  Under every interleaving of these `2 * M` steps all calls
return `REPORT_ACCEPTED`; the observations recorded are those of the `M` calls, each
exactly once; the view of `o` on `s` is the earlier view with them pushed in recording
order; and when the earlier view held at most `MaxReportPerView` observations, as in
every reachable store, it ends with `min (previous length + M) 5` of them. -/
theorem no_lost_updates (o s : EntityId) (st : RawHealthStorage)
    (calls : List (Report × Bool)) (sched : List Nat) (hfree : Free st s)
    (hcalls : ∀ c ∈ calls, c.1.Observer = o ∧ c.1.Subject = s ∧
      (c.2 = false ∨ st.Watchlist.contains s = true))
    (htwice : ∀ i, i < calls.length → sched.count i = 2)
    (hrange : ∀ i ∈ sched, i < calls.length) :
    ∃ sys', Concurrent.run calls (Concurrent.start st) sched = some sys' ∧
      (∀ i, i < calls.length → sys'.phase i = Phase.finished (REPORT_ACCEPTED, none)) ∧
      (Concurrent.recorded calls (Concurrent.start st) sched).Perm
        (calls.map (fun c => c.1.Observation)) ∧
      obsAt sys'.store s o =
        applyObs (obsAt st s o) (Concurrent.recorded calls (Concurrent.start st) sched) ∧
      (((obsAt st s o).getD []).length ≤ MaxReportPerView →
        ((obsAt sys'.store s o).getD []).length =
          min (((obsAt st s o).getD []).length + calls.length) MaxReportPerView) := by
  have inv : SchedInv s calls (Concurrent.start st) sched :=
    { free := hfree
      passes := fun c hc => (hcalls c hc).2.2
      counts := fun i => by
        by_cases hi : i < calls.length
        · rw [if_pos hi, htwice i hi]
          rfl
        · rw [if_neg hi]
          exact List.count_eq_zero_of_not_mem (fun hm => hi (hrange i hm))
      held := fun h => by
        obtain ⟨i, _, hp⟩ := h
        simp [Concurrent.start] at hp
      done := fun i v _ hp => by simp [Concurrent.start] at hp }
  obtain ⟨sys', hrun, hfin, hview, hnodup, hmemb⟩ :=
    run_schedule o s calls (fun c hc => ⟨(hcalls c hc).1, (hcalls c hc).2.1⟩) sched _ inv
  have hstart : (Concurrent.start st).store = st := rfl
  rw [hstart] at hview
  have hperm : (Concurrent.recorders calls (Concurrent.start st) sched).Perm
      (List.range calls.length) := by
    rw [List.perm_ext_iff_of_nodup hnodup (List.nodup_range _)]
    intro a
    rw [hmemb a, List.mem_range]
    simp [Concurrent.start]
  have hrecorded : (Concurrent.recorded calls (Concurrent.start st) sched).Perm
      (calls.map (fun c => c.1.Observation)) := by
    rw [← filterMap_range_getElem? (fun c : Report × Bool => c.1.Observation) calls]
    exact hperm.filterMap _
  refine ⟨sys', hrun, hfin, hrecorded, hview, ?_⟩
  intro hbound
  rw [hview, applyObs_length _ _ hbound, hrecorded.length_eq, List.length_map]

theorem no_lost_updates_witness :
    Free (NewRawHealthStorage ["S"]) "S" ∧
    (∃ sys', Concurrent.run twoCalls (Concurrent.start (NewRawHealthStorage ["S"]))
        [0, 1, 1, 0] = some sys' ∧
      (∀ i, i < twoCalls.length → sys'.phase i = Phase.finished (REPORT_ACCEPTED, none)) ∧
      (Concurrent.recorded twoCalls (Concurrent.start (NewRawHealthStorage ["S"]))
        [0, 1, 1, 0]).Perm (twoCalls.map (fun c => c.1.Observation)) ∧
      obsAt sys'.store "S" "O" =
        applyObs (obsAt (NewRawHealthStorage ["S"]) "S" "O")
          (Concurrent.recorded twoCalls (Concurrent.start (NewRawHealthStorage ["S"]))
            [0, 1, 1, 0]) ∧
      (((obsAt (NewRawHealthStorage ["S"]) "S" "O").getD []).length ≤ MaxReportPerView →
        ((obsAt sys'.store "S" "O").getD []).length =
          min (((obsAt (NewRawHealthStorage ["S"]) "S" "O").getD []).length + twoCalls.length)
            MaxReportPerView)) ∧
    (Concurrent.run twoCalls (Concurrent.start (NewRawHealthStorage ["S"])) [0, 1, 1, 0]).map
        (fun sys => obsAt sys.store "S" "O") = some (some [⟨2, "m"⟩, ⟨1, "m"⟩]) ∧
    (Concurrent.run twoCalls (Concurrent.start (NewRawHealthStorage ["S"])) [0, 0, 1, 1]).map
        (fun sys => obsAt sys.store "S" "O") = some (some [⟨1, "m"⟩, ⟨2, "m"⟩]) :=
  ⟨by decide,
    no_lost_updates "O" "S" (NewRawHealthStorage ["S"]) twoCalls [0, 1, 1, 0] (by decide)
      (by decide) (by decide) (by decide),
    by decide, by decide⟩

/-- C18 (lock hand-off of queries and ingestion) does not hold of the code: called with
every mutex free on a store that has no lock on record for `s`, `GetLatestReport(s)`
returns nil with the store-wide mutex still held; an `AddReport` made afterwards waits
forever for that mutex. -/
theorem GetLatestReport_keeps_store_mutex :
    (∀ (range : RangeOrder) (st : RawHealthStorage) (s : EntityId),
      GetLatestReport range { st with mu := ⟨false⟩, Locks := st.Locks.delete s } s =
        .returned none { st with mu := ⟨true⟩, Locks := st.Locks.delete s }) ∧
    GetLatestReport storedOrder (NewRawHealthStorage ["T"]) "S" =
      .returned none { NewRawHealthStorage ["T"] with mu := ⟨true⟩ } ∧
    AddReport { NewRawHealthStorage ["T"] with mu := ⟨true⟩ } ⟨"O", "T", ⟨1, "m"⟩⟩ false =
      .blocked { NewRawHealthStorage ["T"] with mu := ⟨true⟩ } := by
  refine ⟨?_, by decide, by decide⟩
  intro range st s
  exact GetLatestReport_no_lock range _ s rfl (GoMap.get?_delete_self _ _)

/-- C19 (views are never empty): in every store reachable from `NewRawHealthStorage`
through calls of the store's operations, every view of every panorama holds at least one
observation, so it has a tail; hence `GetLatestReport` never panics on such a store,
whatever the subject and the iteration order. -/
theorem views_never_empty (st : RawHealthStorage) (h : Reachable st) :
    (∀ s p o v, st.Tenants.get? s = some p → p.Views.get? o = some v →
      v.Observations ≠ [] ∧ ∃ ob, v.Observations.getLast? = some ob) ∧
    (∀ (range : RangeOrder) (s : EntityId) (st' : RawHealthStorage),
      GetLatestReport range st s ≠ .panicked st') := by
  have hinv := Reachable_ViewsNonempty st h
  constructor
  · intro s p o v hp hv
    have hne := hinv s p hp o v hv
    refine ⟨hne, ?_⟩
    cases hl : v.Observations.getLast? with
    | none => exact absurd (List.getLast?_eq_none_iff.mp hl) hne
    | some ob => exact ⟨ob, rfl⟩
  · intro range s st' hpanic
    obtain ⟨p, hp, hscan⟩ := GetLatestReport_panicked range st st' s hpanic
    have hperm := range.perm p.Views.entries
    obtain ⟨acc, hacc⟩ := scanViews_isSome (range.visit p.Views.entries)
      (fun o v hm => hinv s p hp o v
        ((GoMap.get?_eq_some_iff_mem _ o v).mpr (hperm.mem_iff.mp hm))) scanInit
    rw [hscan] at hacc
    cases hacc

theorem views_never_empty_witness :
    Reachable afterSix ∧
    (∀ s p o v, afterSix.Tenants.get? s = some p → p.Views.get? o = some v →
      v.Observations ≠ [] ∧ ∃ ob, v.Observations.getLast? = some ob) ∧
    (∀ (range : RangeOrder) (s : EntityId) (st' : RawHealthStorage),
      GetLatestReport range afterSix s ≠ .panicked st') :=
  ⟨Reachable_afterSix, views_never_empty afterSix Reachable_afterSix⟩

/-- C20 (frame of AddReport): when `AddReport` accepts a report from observer `o` about
subject `s`, the Watchlist entry, the lock and the panorama of every subject other than
`s` are the same before and after the call, and so is every view of `s` that belongs to
an observer other than `o`. -/
theorem AddReport_frame (st st' : RawHealthStorage) (report : Report) (filter : Bool)
    (h : AddReport st report filter = .returned (REPORT_ACCEPTED, none) st') :
    (∀ s', s' ≠ report.Subject →
      st'.Watchlist.get? s' = st.Watchlist.get? s' ∧
      st'.Locks.get? s' = st.Locks.get? s' ∧
      st'.Tenants.get? s' = st.Tenants.get? s') ∧
    (∀ o', o' ≠ report.Observer →
      (st'.Tenants.get? report.Subject).bind (fun p => p.Views.get? o') =
        (st.Tenants.get? report.Subject).bind (fun p => p.Views.get? o')) := by
  have hst : st' = acceptedStore st report := by
    rcases AddReport_returned st st' report filter _ h with ⟨hv, _⟩ | ⟨_, hst⟩
    · simp [REPORT_ACCEPTED, REPORT_IGNORED] at hv
    · exact hst
  subst hst
  constructor
  · intro s' hs
    refine ⟨?_, by simp [acceptedStore, GoMap.get?_set_ne _ _ hs],
      by simp [acceptedStore, GoMap.get?_set_ne _ _ hs]⟩
    simp only [acceptedStore]
    split
    · rfl
    · exact GoMap.get?_set_ne _ _ hs
  · intro o' ho
    simp only [acceptedStore, GoMap.get?_set_self]
    show (recordObservation (panoramaFor st report.Subject) report).Views.get? o' = _
    rw [recordObservation_get?_ne _ _ _ ho]
    unfold panoramaFor
    cases st.Tenants.get? report.Subject <;> simp

theorem AddReport_frame_witness :
    AddReport twoObserversAB ⟨"A", "S", ⟨3, "m"⟩⟩ true =
      .returned (REPORT_ACCEPTED, none) (submitAll twoObserversAB [⟨"A", "S", ⟨3, "m"⟩⟩]) ∧
    (∀ o', o' ≠ "A" →
      ((submitAll twoObserversAB [⟨"A", "S", ⟨3, "m"⟩⟩]).Tenants.get? "S").bind
          (fun p => p.Views.get? o') =
        (twoObserversAB.Tenants.get? "S").bind (fun p => p.Views.get? o')) :=
  ⟨by decide,
    (AddReport_frame twoObserversAB (submitAll twoObserversAB [⟨"A", "S", ⟨3, "m"⟩⟩])
      ⟨"A", "S", ⟨3, "m"⟩⟩ true (by decide)).2⟩

end Store
